import Mathlib

/-
  A shallow embedding of `so_5/impl/simple_mtsafe_st_env_infrastructure.cpp`
  (SObjectizer's simple multithreaded-safe single-thread environment
  infrastructure) together with theorems about its behaviour.

  The embedding follows the source file closely:
  * `main_thread_status_t`, `main_thread_sync_objects_t`, `wakeup_if_waiting`
    model the sync core (the mutex is modelled by an explicit `held` flag,
    the condition variable's `notify_one` by an event in the trace);
  * `event_queue_impl_t` with `push`/`pop`/`query_stats` models the demand
    queue;
  * `unlock_do_and_lock_again` models the scoped-unlock helper;
  * `env_infrastructure_t`'s data members become fields of `St`, and its
    member functions become functions on `St`;
  * external collaborators (cooperation repository, timer manager, elapsed
    timers collector, default dispatcher) are out of scope of the source
    file and are represented by a parameter structure `ExtBehavior` whose
    operations may transform an abstract world and call back into the
    infrastructure entry points, exactly as the real collaborators may.

  Every call into a collaborator is recorded in an event trace together
  with the lock state at the moment of the call, so lock-discipline and
  step-ordering properties can be stated and proved over traces.
-/

namespace SimpleMtsafeStEnv

/-- Status of the main thread on which the environment is working
(`main_thread_status_t` in the source): the thread either handles events
(`working`) or sleeps waiting for new events (`waiting`). -/
inductive main_thread_status_t where
  | working
  | waiting
deriving DecidableEq, Repr

/-- Modelled from the spec: the shutdown status enum lives in
`st_env_infrastructure_reuse.hpp`, which is outside this translation unit;
its four values `not_started`, `must_be_started`, `in_progress`,
`completed` are taken from the spec's ShutdownState description and from
their uses in the source file. -/
inductive shutdown_status_t where
  | not_started
  | must_be_started
  | in_progress
  | completed
deriving DecidableEq, Repr

/-- Ordinal of a shutdown status, following the order
NotStarted < MustStart < InProgress < Completed used by the spec. -/
def shutdown_status_t.toNat : shutdown_status_t → Nat
  | .not_started => 0
  | .must_be_started => 1
  | .in_progress => 2
  | .completed => 3

/-- Identifiers for the operations of the external collaborators invoked by
this translation unit (cooperation repository, timer manager, elapsed
timers collector, default dispatcher). Cooperation handles and demands are
modelled as natural numbers. -/
inductive ExtOp where
  | final_deregister (c : Nat)
  | deregister_all
  | has_live_coop (r : Bool)
  | timer_schedule
  | timer_schedule_anonymous
  | process_expired
  | collector_empty (r : Bool)
  | collector_process
  | dispatcher_handle (d : Nat)
  | timeout_before_nearest
  | repo_query_stats
deriving DecidableEq, Repr

/-- Observable events of a run: a call into an external collaborator
(recording whether the core lock was held at the moment of the call), a
`notify_one` on the wakeup condition, and the idle sleep (`wait_for`)
with its computed bound. -/
inductive Ev where
  | ext (op : ExtOp) (lockHeld : Bool)
  | notify
  | sleep (bound : Nat)
deriving DecidableEq, Repr

/-- The callbacks an external collaborator is permitted to make into the
infrastructure from an unlocked window: pushing a demand, notifying that a
cooperation is ready for final deregistration, requesting stop, and
scheduling timers. -/
inductive Callback where
  | push (d : Nat)
  | ready_to_deregister_notify (c : Nat)
  | stop
  | schedule_timer
  | single_timer
deriving DecidableEq, Repr

/-- Behaviour of the external collaborators, parameterised by an abstract
world type `W`. Operations that run in unlocked windows may return a list
of callbacks into the infrastructure (the real collaborators may call
`push`, `ready_to_deregister_notify`, `stop`, and the timer entry points
reentrantly). -/
structure ExtBehavior (W : Type) where
  final_deregister : Nat → W → W × List Callback
  deregister_all : W → W × List Callback
  has_live_coop : W → Bool
  process_expired : W → W
  collector_empty : W → Bool
  collector_process : W → W × List Callback
  timer_schedule : W → W
  timer_schedule_anonymous : W → W
  timeout_before_nearest : Nat → W → Nat
  dispatcher_handle : Nat → W → W × List Callback
  repo_query_stats : W → Nat × Nat

/-- The demand queue (`event_queue_impl_t` in the source): a deque of
execution demands, modelled as a list whose head is the front. -/
structure event_queue_impl_t where
  m_demands : List Nat
deriving DecidableEq, Repr

/-- Extraction of the head demand (`event_queue_impl_t::pop`): removes and
returns the front of the deque, or reports an empty queue (`none`). Must
only be called with the main mutex locked. -/
def event_queue_impl_t.pop (q : event_queue_impl_t) :
    Option (Nat × event_queue_impl_t) :=
  match q.m_demands with
  | [] => none
  | d :: rest => some (d, ⟨rest⟩)

/-- Statistics of the queue (`event_queue_impl_t::query_stats`): the
current size of the demands deque. -/
def event_queue_impl_t.query_stats (q : event_queue_impl_t) : Nat :=
  q.m_demands.length

/-- Result type of `env_infrastructure_t::query_coop_repository_stats`:
total cooperation count, total agent count, and the current length of the
final-deregistration backlog. -/
structure coop_repository_stats_t where
  m_total_coop_count : Nat
  m_total_agent_count : Nat
  m_final_dereg_coop_count : Nat
deriving DecidableEq, Repr

/-- The complete mutable state of the infrastructure: the `held` flag
models the main mutex (`main_thread_sync_objects_t::m_lock`), `m_status`
the worker status, `m_final_dereg_coops` the final-deregistration backlog,
`m_shutdown_status` the shutdown state machine, `m_event_queue` the demand
queue, `world` the abstract state of the external collaborators, and
`trace` the accumulated observable events of the run. -/
structure St (W : Type) where
  held : Bool
  m_status : main_thread_status_t
  m_final_dereg_coops : List Nat
  m_shutdown_status : shutdown_status_t
  m_event_queue : event_queue_impl_t
  world : W
  trace : List Ev
deriving DecidableEq, Repr

variable {W : Type}

/-- The state of a freshly constructed `env_infrastructure_t`: the member
initialisers give `m_status{working}`, `m_shutdown_status{not_started}`,
and empty containers; the mutex is free. -/
def initial_state (w : W) : St W :=
  { held := false
    m_status := .working
    m_final_dereg_coops := []
    m_shutdown_status := .not_started
    m_event_queue := ⟨[]⟩
    world := w
    trace := [] }

/-- Record a call into an external collaborator, together with the lock
state at the moment of the call. -/
def emitExt (op : ExtOp) (s : St W) : St W :=
  { s with trace := s.trace ++ [Ev.ext op s.held] }

/-- The wakeup helper (`wakeup_if_waiting` in the source): issue a
`notify_one` on the wakeup condition only when the main thread status is
`waiting`. The mutex must already be acquired by the caller. -/
def wakeup_if_waiting (s : St W) : St W :=
  if s.m_status = .waiting then { s with trace := s.trace ++ [Ev.notify] }
  else s

/-- The scoped-unlock utility (`helpers::unlock_do_and_lock_again`):
given an already-acquired lock, release it, run the action, and reacquire
the lock on every exit path (the relock is registered with
`at_scope_exit`, so it runs before a failure propagates out). The action
may fail, which is modelled by an `Except` result. -/
def unlock_do_and_lock_again {ε α : Type}
    (action : St W → Except ε α × St W) (s : St W) :
    Except ε α × St W :=
  let s1 := { s with held := false }
  let r := action s1
  (r.1, { r.2 with held := true })

/-- Specialisation of the scoped-unlock utility to the non-failing actions
used inside the main loop (all of them run under `invoke_noexcept_code`
or are `noexcept`). -/
def unlock_do (g : St W → St W) (s : St W) : St W :=
  (unlock_do_and_lock_again (fun s => ((Except.ok () : Except Unit Unit), g s)) s).2

/-- The queue's `push` (`event_queue_impl_t::push`): locks the main mutex
by itself, appends the demand at the tail of the deque and wakes the main
thread if it is waiting. -/
def push (d : Nat) (s : St W) : St W :=
  let s := { s with held := true }
  let s := { s with m_event_queue := ⟨s.m_event_queue.m_demands ++ [d]⟩ }
  let s := wakeup_if_waiting s
  { s with held := false }

/-- The stop request (`env_infrastructure_t::stop`): under the lock, if the
shutdown status is `not_started`, advance it to `must_be_started` and wake
the main thread if it is waiting; otherwise do nothing. -/
def stop (s : St W) : St W :=
  let s := { s with held := true }
  let s :=
    if s.m_shutdown_status = .not_started then
      wakeup_if_waiting { s with m_shutdown_status := .must_be_started }
    else s
  { s with held := false }

/-- The final-deregistration notification
(`env_infrastructure_t::ready_to_deregister_notify`): under the lock,
append the cooperation to the backlog and wake the main thread if it is
waiting. -/
def ready_to_deregister_notify (c : Nat) (s : St W) : St W :=
  let s := { s with held := true }
  let s := { s with m_final_dereg_coops := s.m_final_dereg_coops ++ [c] }
  let s := wakeup_if_waiting s
  { s with held := false }

/-- Timer scheduling (`env_infrastructure_t::schedule_timer`): under the
lock, forward to the timer manager's `schedule`, then wake the main thread
if it is waiting. Note that the timer manager is called while the lock is
held. -/
def schedule_timer (ext : ExtBehavior W) (s : St W) : St W :=
  let s := { s with held := true }
  let s := emitExt .timer_schedule s
  let s := { s with world := ext.timer_schedule s.world }
  let s := wakeup_if_waiting s
  { s with held := false }

/-- Anonymous timer scheduling (`env_infrastructure_t::single_timer`):
under the lock, forward to the timer manager's `schedule_anonymous`, then
wake the main thread if it is waiting. -/
def single_timer (ext : ExtBehavior W) (s : St W) : St W :=
  let s := { s with held := true }
  let s := emitExt .timer_schedule_anonymous s
  let s := { s with world := ext.timer_schedule_anonymous s.world }
  let s := wakeup_if_waiting s
  { s with held := false }

/-- Application of one reentrant callback made by an external collaborator:
each callback is exactly one of the infrastructure's thread-safe entry
points. -/
def applyCallback (ext : ExtBehavior W) (cb : Callback) (s : St W) : St W :=
  match cb with
  | .push d => push d s
  | .ready_to_deregister_notify c => ready_to_deregister_notify c s
  | .stop => stop s
  | .schedule_timer => schedule_timer ext s
  | .single_timer => single_timer ext s

/-- Application of a sequence of reentrant callbacks, in order. -/
def applyCallbacks (ext : ExtBehavior W) (cbs : List Callback) (s : St W) :
    St W :=
  cbs.foldl (fun s cb => applyCallback ext cb s) s

/-- One call into an external collaborator: record the call with the
current lock state, transform the external world, and apply the callbacks
the collaborator makes into the infrastructure. -/
def run_ext_with_callbacks (ext : ExtBehavior W) (op : ExtOp)
    (f : W → W × List Callback) (s : St W) : St W :=
  let s := emitExt op s
  let r := f s.world
  applyCallbacks ext r.2 { s with world := r.1 }

/-- Statistics snapshot (`env_infrastructure_t::query_coop_repository_stats`):
under the lock, query the cooperation repository's stats and return them
together with the current length of the final-deregistration backlog. -/
def query_coop_repository_stats (ext : ExtBehavior W) (s : St W) :
    coop_repository_stats_t × St W :=
  let s := { s with held := true }
  let stats := ext.repo_query_stats s.world
  let s := emitExt .repo_query_stats s
  (⟨stats.1, stats.2, s.m_final_dereg_coops.length⟩, { s with held := false })

/-- The final-deregistration drain
(`env_infrastructure_t::process_final_deregs_if_any`): while the backlog is
non-empty, swap it into a local batch (clearing the shared backlog), then
in an unlocked window call the repository's final-deregistration for each
handle of the batch. The `while` loop is necessary because processing one
final-deregistration demand can add new ones; since callbacks could in
principle keep refilling the backlog, the number of `while` iterations is
bounded by an explicit fuel (`none` means the loop has not yet finished
within the given fuel). -/
def process_final_deregs_if_any (ext : ExtBehavior W) :
    Nat → St W → Option (St W)
  | 0, s => if s.m_final_dereg_coops.isEmpty then some s else none
  | fuel + 1, s =>
    if s.m_final_dereg_coops.isEmpty then some s
    else
      let coops := s.m_final_dereg_coops
      let s := { s with m_final_dereg_coops := [] }
      let s := unlock_do (fun s =>
        coops.foldl (fun s c =>
          run_ext_with_callbacks ext (.final_deregister c)
            (ext.final_deregister c) s) s) s
      process_final_deregs_if_any ext fuel s

/-- The shutdown step
(`env_infrastructure_t::perform_shutdown_related_actions_if_needed`): if
shutdown must be started, advance to `in_progress` and, in an unlocked
window, ask the repository to deregister all cooperations; then, if
shutdown is in progress and the repository reports no live cooperation,
advance to `completed`. Note that `has_live_coop` is queried while the
lock is held. -/
def perform_shutdown_related_actions_if_needed (ext : ExtBehavior W)
    (s : St W) : St W :=
  let s :=
    if s.m_shutdown_status = .must_be_started then
      let s := { s with m_shutdown_status := .in_progress }
      unlock_do (fun s =>
        run_ext_with_callbacks ext .deregister_all ext.deregister_all s) s
    else s
  if s.m_shutdown_status = .in_progress then
    let r := ext.has_live_coop s.world
    let s := emitExt (.has_live_coop r) s
    if r = false then { s with m_shutdown_status := .completed } else s
  else s

/-- The timer step (`env_infrastructure_t::handle_expired_timers_if_any`):
ask the timer manager to collect the expired timers (called with the lock
held), then, if the collector is non-empty, process the elapsed timers in
an unlocked window (the processing may push new demands, which is
impossible while the mutex is locked). -/
def handle_expired_timers_if_any (ext : ExtBehavior W) (s : St W) : St W :=
  let s := emitExt .process_expired s
  let s := { s with world := ext.process_expired s.world }
  let r := ext.collector_empty s.world
  let s := emitExt (.collector_empty r) s
  if r = false then
    unlock_do (fun s =>
      run_ext_with_callbacks ext .collector_process ext.collector_process s) s
  else s

/-- The demand step (`env_infrastructure_t::try_handle_next_demand`): pop
one demand. If the queue is empty and there are no pending
final-deregistration actions, compute the sleep bound from the nearest
timer (capped by one minute, modelled as 60000), mark the thread
`waiting`, sleep on the wakeup condition, and mark it `working` again.
If a demand was extracted, let the default dispatcher handle it in an
unlocked window. -/
def try_handle_next_demand (ext : ExtBehavior W) (s : St W) : St W :=
  match s.m_event_queue.pop with
  | none =>
    if s.m_final_dereg_coops.isEmpty then
      let bound := ext.timeout_before_nearest 60000 s.world
      let s := emitExt .timeout_before_nearest s
      let s := { s with m_status := .waiting }
      let s := { s with trace := s.trace ++ [Ev.sleep bound] }
      { s with m_status := .working }
    else s
  | some (d, q) =>
    let s := { s with m_event_queue := q }
    unlock_do (fun s =>
      run_ext_with_callbacks ext (.dispatcher_handle d)
        (ext.dispatcher_handle d) s) s

/-- One iteration of the main loop body (`env_infrastructure_t::run_main_loop`,
body of the `for(;;)`): first process all pending final deregistrations,
then handle a pending shutdown operation and exit the loop if the shutdown
status is `completed` (the returned flag is `true` exactly when the `break`
is taken), then convert the expired timers to events, and finally attempt
to process one demand or go to sleep. -/
def run_main_loop_iteration (ext : ExtBehavior W) (dfuel : Nat) (s : St W) :
    Option (St W × Bool) :=
  match process_final_deregs_if_any ext dfuel s with
  | none => none
  | some s =>
    let s := perform_shutdown_related_actions_if_needed ext s
    if s.m_shutdown_status = .completed then some (s, true)
    else
      let s := handle_expired_timers_if_any ext s
      let s := try_handle_next_demand ext s
      some (s, false)

/-- The `for(;;)` of `run_main_loop`, with an explicit bound on the number
of iterations (`none` means the loop has not yet exited within the given
fuel; the real loop exits only through the `break` taken when the shutdown
status is `completed`). -/
def main_loop_iterations (ext : ExtBehavior W) (dfuel : Nat) :
    Nat → St W → Option (St W)
  | 0, _ => none
  | fuel + 1, s =>
    match run_main_loop_iteration ext dfuel s with
    | none => none
    | some (s, true) => some s
    | some (s, false) => main_loop_iterations ext dfuel fuel s

/-- The main loop (`env_infrastructure_t::run_main_loop`): acquire the main
lock for the first time, run the loop until the `break`, and release the
lock when the function returns. -/
def run_main_loop (ext : ExtBehavior W) (dfuel fuel : Nat) (s : St W) :
    Option (St W) :=
  (main_loop_iterations ext dfuel fuel { s with held := true }).map
    (fun s => { s with held := false })

/-- The launch body
(`env_infrastructure_t::run_user_supplied_init_and_do_main_loop`): run the
user-supplied init function; if it fails, store the failure and initiate
`stop()`; then run the main loop (a `noexcept` boundary) to completion;
finally re-signal the stored init failure, if any, to the caller. The init
function may transform the whole state (register cooperations, schedule
timers, push demands) and may fail, which is modelled by an optional error
code alongside the transformed state. -/
def run_user_supplied_init_and_do_main_loop (ext : ExtBehavior W)
    (dfuel fuel : Nat) (init_fn : St W → St W × Option Nat) (s : St W) :
    Option (St W × Option Nat) :=
  let r := init_fn s
  let s1 := match r.2 with
    | some _ => stop r.1
    | none => r.1
  match run_main_loop ext dfuel fuel s1 with
  | none => none
  | some s2 => some (s2, r.2)

/-- A degenerate external behaviour used to exercise the model on concrete
inputs: the world is trivial, no collaborator ever calls back, the
repository reports no live cooperation, and the collector is always
empty. -/
def trivialExt : ExtBehavior Unit where
  final_deregister := fun _ w => (w, [])
  deregister_all := fun w => (w, [])
  has_live_coop := fun _ => false
  process_expired := fun w => w
  collector_empty := fun _ => true
  collector_process := fun w => (w, [])
  timer_schedule := fun w => w
  timer_schedule_anonymous := fun w => w
  timeout_before_nearest := fun cap _ => cap
  dispatcher_handle := fun _ w => (w, [])
  repo_query_stats := fun _ => (0, 0)

/-- One scripted step of the spec-modelled collaborators: which (still
live, not yet notified) cooperations become ready for final
deregistration during this collaborator call, which demands are pushed,
and whether `stop` is requested. -/
structure Cmd where
  readies : List Nat
  pushes : List Nat
  doStop : Bool
deriving DecidableEq, Repr

/-- Modelled from the spec: the world of the external collaborators, whose
code (`coop_repo_t`, the timer manager and the elapsed-timers collector
from `st_env_infrastructure_reuse.hpp`) is outside this translation unit.
`live` is the repository's set of registered, not yet finally deregistered
cooperations; `notified` are the live cooperations whose
`ready_to_deregister_notify` has already been issued; `timers` counts the
pending timers and `elapsed` the entries of the elapsed-timers collector;
`script` drives the asynchronous choices (which cooperations become ready
during a collaborator call, which demands timer processing and dispatching
push, and when `stop` is requested). -/
structure SpecW where
  live : List Nat
  notified : List Nat
  timers : Nat
  elapsed : Nat
  script : List Cmd
deriving DecidableEq, Repr

/-- Modelled from the spec: one candidate ready-notification. A
cooperation can become ready only if it is still live and has not been
notified before (final deregistration is the terminal step of a
cooperation's lifecycle, notified exactly once); an accepted cooperation
is recorded as notified and a `ready_to_deregister_notify` callback is
produced for it. -/
def emitReadiesStep (p : SpecW × List Callback) (c : Nat) :
    SpecW × List Callback :=
  if c ∈ p.1.live ∧ c ∉ p.1.notified then
    ({ p.1 with notified := c :: p.1.notified },
      p.2 ++ [Callback.ready_to_deregister_notify c])
  else p

/-- Modelled from the spec: issue the ready-for-final-deregistration
notifications requested by a script step, filtering out the cooperations
that are no longer live or have already been notified. -/
def emitReadies (rs : List Nat) (w : SpecW) : SpecW × List Callback :=
  rs.foldl emitReadiesStep (w, [])

/-- Modelled from the spec: one collaborator call consumes the head of the
script and produces the scripted ready notifications, demand pushes and
stop request as reentrant callbacks. -/
def runCmd (w : SpecW) : SpecW × List Callback :=
  match w.script with
  | [] => (w, [])
  | cmd :: rest =>
    let w := { w with script := rest }
    let r := emitReadies cmd.readies w
    (r.1, r.2 ++ cmd.pushes.map Callback.push ++
      (if cmd.doStop then [Callback.stop] else []))

/-- Modelled from the spec: the behaviour of the external collaborators.
The repository's `final_deregister` removes the cooperation from the live
set (and from the notified set); `deregister_all` initiates deregistration
of every registered cooperation (the resulting ready notifications arrive
asynchronously, driven by the script); `has_live_coop` reports whether any
registered cooperation remains; the timer manager's `process_expired`
moves due timers into the collector; the collector's `process` delivers
the due messages (pushing demands via the script) and empties the
collector; dispatching a demand may, through agent handlers, produce
ready notifications, pushes and stop requests, again driven by the
script. -/
def specExt : ExtBehavior SpecW where
  final_deregister := fun c w =>
    runCmd { w with live := w.live.erase c, notified := w.notified.erase c }
  deregister_all := runCmd
  has_live_coop := fun w => !w.live.isEmpty
  process_expired := fun w => { w with timers := 0, elapsed := w.elapsed + w.timers }
  collector_empty := fun w => w.elapsed = 0
  collector_process := fun w => runCmd { w with elapsed := 0 }
  timer_schedule := fun w => { w with timers := w.timers + 1 }
  timer_schedule_anonymous := fun w => { w with timers := w.timers + 1 }
  timeout_before_nearest := fun cap w => if w.timers = 0 then cap else 1
  dispatcher_handle := fun _ w => runCmd w
  repo_query_stats := fun w => (w.live.length, 0)

/-- Rank of the main-loop step an observable event belongs to:
0 for the final-deregistration drain, 1 for the shutdown evaluation, 2 for
the delivery of expired timers, 3 for demand processing and the idle
sleep. Events that can also be produced by reentrant callbacks (timer
scheduling, notifications) carry no rank. -/
def phaseRank : Ev → Option Nat
  | .ext (.final_deregister _) _ => some 0
  | .ext .deregister_all _ => some 1
  | .ext (.has_live_coop _) _ => some 1
  | .ext .process_expired _ => some 2
  | .ext (.collector_empty _) _ => some 2
  | .ext .collector_process _ => some 2
  | .ext (.dispatcher_handle _) _ => some 3
  | .ext .timeout_before_nearest _ => some 3
  | .sleep _ => some 3
  | _ => none

/-- The collaborator operations that the source invokes from inside an
unlocked window of the scoped-unlock utility; all the other collaborator
operations are invoked while the core lock is held. -/
def unlockedOp : ExtOp → Bool
  | .final_deregister _ => true
  | .deregister_all => true
  | .collector_process => true
  | .dispatcher_handle _ => true
  | _ => false

/-- Lock discipline of one event: a collaborator call made from an
unlocked window must happen with the lock released, every other
collaborator call with the lock held. -/
def lockOkB : Ev → Bool
  | .ext op held => held == !unlockedOp op
  | _ => true

/-- The literal reading of the claim that every collaborator call happens
without the lock: an `ext` event must record the lock as released. -/
def extCallUnlocked : Ev → Bool
  | .ext _ held => !held
  | _ => true

/-- The cooperations carried by the `ready_to_deregister_notify` callbacks
of a callback list, in order. -/
def readyCoops (cbs : List Callback) : List Nat :=
  cbs.filterMap fun cb =>
    match cb with
    | .ready_to_deregister_notify c => some c
    | _ => none

/-- Repeatedly extract demands from the queue until it reports empty,
collecting the extracted demands in extraction order. -/
def popAll (q : event_queue_impl_t) : List Nat :=
  match h : q.pop with
  | none => []
  | some r => r.1 :: popAll r.2
termination_by q.m_demands.length
decreasing_by
  unfold event_queue_impl_t.pop at h
  cases hq : q.m_demands with
  | nil => rw [hq] at h; exact absurd h (by simp)
  | cons d rest =>
    rw [hq] at h
    simp only [Option.some.injEq] at h
    rw [← h]
    simp

/-- Push a sequence of demands, one after the other, in the given order
(the lock linearises concurrent pushes into such a sequence). -/
def pushAll (ds : List Nat) (s : St W) : St W :=
  ds.foldl (fun s d => push d s) s

/-- Invariant of the spec-modelled cooperation repository: every notified
cooperation is still live (final deregistration has not happened yet), and
no cooperation is notified twice. -/
def RepoInv (w : SpecW) : Prop :=
  (∀ c ∈ w.notified, c ∈ w.live) ∧ w.notified.Nodup

/-- The drain-before-complete invariant of the main loop over the
spec-modelled collaborators: every backlogged cooperation has been
notified (hence is still live), the backlog has no duplicates, the
repository invariant holds, and a completed shutdown implies an empty
backlog and no live cooperation. -/
def GoodC3 (s : St SpecW) : Prop :=
  (∀ c ∈ s.m_final_dereg_coops, c ∈ s.world.notified) ∧
  s.m_final_dereg_coops.Nodup ∧
  RepoInv s.world ∧
  (s.m_shutdown_status = .completed →
    s.m_final_dereg_coops = [] ∧ s.world.live = [])

theorem set_held_false_eq_self {s : St W} (h : s.held = false) :
    { s with held := false } = s := by
  cases s
  simp_all

theorem wakeup_if_waiting_eq (s : St W) :
    wakeup_if_waiting s =
      { s with trace :=
          s.trace ++ (if s.m_status = .waiting then [Ev.notify] else []) } := by
  by_cases hw : s.m_status = .waiting <;> simp [wakeup_if_waiting, hw]

theorem push_eq (d : Nat) (s : St W) :
    push d s =
      { s with held := false,
               m_event_queue := ⟨s.m_event_queue.m_demands ++ [d]⟩,
               trace :=
                 s.trace ++
                   (if s.m_status = .waiting then [Ev.notify] else []) } := by
  by_cases hw : s.m_status = .waiting <;> simp [push, wakeup_if_waiting, hw]

theorem stop_eq_of_not_started {s : St W}
    (h : s.m_shutdown_status = .not_started) :
    stop s =
      { s with held := false,
               m_shutdown_status := .must_be_started,
               trace :=
                 s.trace ++
                   (if s.m_status = .waiting then [Ev.notify] else []) } := by
  by_cases hw : s.m_status = .waiting <;>
    simp [stop, wakeup_if_waiting, h, hw]

theorem stop_eq_of_ne {s : St W}
    (h : ¬ s.m_shutdown_status = .not_started) :
    stop s = { s with held := false } := by
  simp [stop, h]

theorem ready_to_deregister_notify_eq (c : Nat) (s : St W) :
    ready_to_deregister_notify c s =
      { s with held := false,
               m_final_dereg_coops := s.m_final_dereg_coops ++ [c],
               trace :=
                 s.trace ++
                   (if s.m_status = .waiting then [Ev.notify] else []) } := by
  by_cases hw : s.m_status = .waiting <;>
    simp [ready_to_deregister_notify, wakeup_if_waiting, hw]

theorem schedule_timer_eq (ext : ExtBehavior W) (s : St W) :
    schedule_timer ext s =
      { s with held := false,
               world := ext.timer_schedule s.world,
               trace :=
                 s.trace ++ [Ev.ext .timer_schedule true] ++
                   (if s.m_status = .waiting then [Ev.notify] else []) } := by
  by_cases hw : s.m_status = .waiting <;>
    simp [schedule_timer, emitExt, wakeup_if_waiting, hw]

theorem single_timer_eq (ext : ExtBehavior W) (s : St W) :
    single_timer ext s =
      { s with held := false,
               world := ext.timer_schedule_anonymous s.world,
               trace :=
                 s.trace ++ [Ev.ext .timer_schedule_anonymous true] ++
                   (if s.m_status = .waiting then [Ev.notify] else []) } := by
  by_cases hw : s.m_status = .waiting <;>
    simp [single_timer, emitExt, wakeup_if_waiting, hw]

theorem unlock_do_eq (g : St W → St W) (s : St W) :
    unlock_do g s = { g { s with held := false } with held := true } := rfl

theorem mem_notify_if {c : Prop} [Decidable c] {e : Ev}
    (h : e ∈ (if c then [Ev.notify] else [])) : e = Ev.notify := by
  split at h <;> simp_all

theorem shutdown_toNat_le_three (a : shutdown_status_t) : a.toNat ≤ 3 := by
  cases a <;> simp [shutdown_status_t.toNat]

theorem shutdown_eq_completed_of_three_le {a : shutdown_status_t}
    (h : 3 ≤ a.toNat) : a = .completed := by
  cases a <;> simp_all [shutdown_status_t.toNat]

theorem applyCallback_spec (ext : ExtBehavior W) (cb : Callback) (s : St W) :
    (applyCallback ext cb s).held = false ∧
    s.m_shutdown_status.toNat ≤ (applyCallback ext cb s).m_shutdown_status.toNat ∧
    ((applyCallback ext cb s).m_shutdown_status = .completed ↔
      s.m_shutdown_status = .completed) ∧
    ∃ t, (applyCallback ext cb s).trace = s.trace ++ t ∧
      ∀ e ∈ t, lockOkB e = true ∧ phaseRank e = none := by
  cases cb with
  | push d =>
    rw [applyCallback, push_eq]
    refine ⟨rfl, le_refl _, Iff.rfl, ?_⟩
    refine ⟨_, rfl, ?_⟩
    intro e he
    rw [mem_notify_if he]
    exact ⟨rfl, rfl⟩
  | ready_to_deregister_notify c =>
    rw [applyCallback, ready_to_deregister_notify_eq]
    refine ⟨rfl, le_refl _, Iff.rfl, ?_⟩
    refine ⟨_, rfl, ?_⟩
    intro e he
    rw [mem_notify_if he]
    exact ⟨rfl, rfl⟩
  | stop =>
    by_cases h : s.m_shutdown_status = .not_started
    · rw [applyCallback, stop_eq_of_not_started h]
      refine ⟨rfl, ?_, ?_, ?_⟩
      · simp [h, shutdown_status_t.toNat]
      · simp [h]
      · refine ⟨_, rfl, ?_⟩
        intro e he
        rw [mem_notify_if he]
        exact ⟨rfl, rfl⟩
    · rw [applyCallback, stop_eq_of_ne h]
      exact ⟨rfl, le_refl _, Iff.rfl, [], by simp, by simp⟩
  | schedule_timer =>
    rw [applyCallback, schedule_timer_eq]
    refine ⟨rfl, le_refl _, Iff.rfl, ?_⟩
    refine ⟨[Ev.ext .timer_schedule true] ++
      (if s.m_status = .waiting then [Ev.notify] else []),
      by rw [List.append_assoc], ?_⟩
    intro e he
    rcases List.mem_append.mp he with h1 | h2
    · rw [List.mem_singleton.mp h1]
      exact ⟨rfl, rfl⟩
    · rw [mem_notify_if h2]
      exact ⟨rfl, rfl⟩
  | single_timer =>
    rw [applyCallback, single_timer_eq]
    refine ⟨rfl, le_refl _, Iff.rfl, ?_⟩
    refine ⟨[Ev.ext .timer_schedule_anonymous true] ++
      (if s.m_status = .waiting then [Ev.notify] else []),
      by rw [List.append_assoc], ?_⟩
    intro e he
    rcases List.mem_append.mp he with h1 | h2
    · rw [List.mem_singleton.mp h1]
      exact ⟨rfl, rfl⟩
    · rw [mem_notify_if h2]
      exact ⟨rfl, rfl⟩

theorem applyCallbacks_spec (ext : ExtBehavior W) (cbs : List Callback)
    (s : St W) (hh : s.held = false) :
    (applyCallbacks ext cbs s).held = false ∧
    s.m_shutdown_status.toNat ≤ (applyCallbacks ext cbs s).m_shutdown_status.toNat ∧
    ((applyCallbacks ext cbs s).m_shutdown_status = .completed ↔
      s.m_shutdown_status = .completed) ∧
    ∃ t, (applyCallbacks ext cbs s).trace = s.trace ++ t ∧
      ∀ e ∈ t, lockOkB e = true ∧ phaseRank e = none := by
  induction cbs generalizing s with
  | nil =>
    exact ⟨hh, le_refl _, Iff.rfl, [], by simp [applyCallbacks], by simp⟩
  | cons cb rest ih =>
    have hstep := applyCallback_spec ext cb s
    obtain ⟨hheld1, hle1, hiff1, t1, ht1, hall1⟩ := hstep
    obtain ⟨hheld2, hle2, hiff2, t2, ht2, hall2⟩ :=
      ih (applyCallback ext cb s) hheld1
    have hfold : applyCallbacks ext (cb :: rest) s =
        applyCallbacks ext rest (applyCallback ext cb s) := rfl
    rw [hfold]
    refine ⟨hheld2, le_trans hle1 hle2, hiff2.trans hiff1, t1 ++ t2, ?_, ?_⟩
    · rw [ht2, ht1, List.append_assoc]
    · intro e he
      rcases List.mem_append.mp he with h1 | h2
      · exact hall1 e h1
      · exact hall2 e h2

theorem run_ext_with_callbacks_eq (ext : ExtBehavior W) (op : ExtOp)
    (f : W → W × List Callback) (s : St W) :
    run_ext_with_callbacks ext op f s =
      applyCallbacks ext (f s.world).2
        { s with trace := s.trace ++ [Ev.ext op s.held],
                 world := (f s.world).1 } := rfl

theorem run_ext_with_callbacks_spec (ext : ExtBehavior W) (op : ExtOp)
    (f : W → W × List Callback) (s : St W) (hh : s.held = false) :
    (run_ext_with_callbacks ext op f s).held = false ∧
    s.m_shutdown_status.toNat ≤
      (run_ext_with_callbacks ext op f s).m_shutdown_status.toNat ∧
    ((run_ext_with_callbacks ext op f s).m_shutdown_status = .completed ↔
      s.m_shutdown_status = .completed) ∧
    ∃ t, (run_ext_with_callbacks ext op f s).trace =
        s.trace ++ Ev.ext op false :: t ∧
      ∀ e ∈ t, lockOkB e = true ∧ phaseRank e = none := by
  rw [run_ext_with_callbacks_eq]
  obtain ⟨h1, h2, h3, t, ht, hall⟩ :=
    applyCallbacks_spec ext (f s.world).2
      { s with trace := s.trace ++ [Ev.ext op s.held],
               world := (f s.world).1 } hh
  refine ⟨h1, h2, h3, t, ?_, hall⟩
  rw [ht]
  show (s.trace ++ [Ev.ext op s.held]) ++ t = _
  rw [hh, List.append_assoc, List.singleton_append]

theorem final_dereg_fold_spec (ext : ExtBehavior W) (coops : List Nat)
    (s : St W) (hh : s.held = false) :
    (coops.foldl (fun s c => run_ext_with_callbacks ext (.final_deregister c)
        (ext.final_deregister c) s) s).held = false ∧
    s.m_shutdown_status.toNat ≤
      (coops.foldl (fun s c => run_ext_with_callbacks ext (.final_deregister c)
        (ext.final_deregister c) s) s).m_shutdown_status.toNat ∧
    ((coops.foldl (fun s c => run_ext_with_callbacks ext (.final_deregister c)
        (ext.final_deregister c) s) s).m_shutdown_status = .completed ↔
      s.m_shutdown_status = .completed) ∧
    ∃ t, (coops.foldl (fun s c => run_ext_with_callbacks ext (.final_deregister c)
        (ext.final_deregister c) s) s).trace = s.trace ++ t ∧
      ∀ e ∈ t, lockOkB e = true ∧
        (phaseRank e = none ∨ phaseRank e = some 0) := by
  induction coops generalizing s with
  | nil =>
    exact ⟨hh, le_refl _, Iff.rfl, [], by simp, by simp⟩
  | cons c rest ih =>
    have hstep := run_ext_with_callbacks_spec ext (.final_deregister c)
      (ext.final_deregister c) s hh
    obtain ⟨h1, h2, h3, t1, ht1, hall1⟩ := hstep
    obtain ⟨g1, g2, g3, t2, ht2, hall2⟩ :=
      ih (run_ext_with_callbacks ext (.final_deregister c)
        (ext.final_deregister c) s) h1
    have hfold : (c :: rest).foldl (fun s c => run_ext_with_callbacks ext
        (.final_deregister c) (ext.final_deregister c) s) s =
        rest.foldl (fun s c => run_ext_with_callbacks ext
          (.final_deregister c) (ext.final_deregister c) s)
          (run_ext_with_callbacks ext (.final_deregister c)
            (ext.final_deregister c) s) := rfl
    rw [hfold]
    refine ⟨g1, le_trans h2 g2, g3.trans h3,
      (Ev.ext (.final_deregister c) false :: t1) ++ t2, ?_, ?_⟩
    · rw [ht2, ht1, List.append_assoc]
    · intro e he
      rcases List.mem_append.mp he with h | h
      · rcases List.mem_cons.mp h with h | h
        · subst h
          exact ⟨rfl, Or.inr rfl⟩
        · exact ⟨(hall1 e h).1, Or.inl (hall1 e h).2⟩
      · exact hall2 e h

theorem process_final_deregs_spec (ext : ExtBehavior W) (dfuel : Nat)
    (s s' : St W) (hh : s.held = true)
    (h : process_final_deregs_if_any ext dfuel s = some s') :
    s'.held = true ∧
    s.m_shutdown_status.toNat ≤ s'.m_shutdown_status.toNat ∧
    (s'.m_shutdown_status = .completed ↔ s.m_shutdown_status = .completed) ∧
    s'.m_final_dereg_coops = [] ∧
    ∃ t, s'.trace = s.trace ++ t ∧
      ∀ e ∈ t, lockOkB e = true ∧
        (phaseRank e = none ∨ phaseRank e = some 0) := by
  induction dfuel generalizing s with
  | zero =>
    unfold process_final_deregs_if_any at h
    by_cases hb : s.m_final_dereg_coops.isEmpty
    · rw [if_pos hb] at h
      injection h with h
      subst h
      exact ⟨hh, le_refl _, Iff.rfl, List.isEmpty_iff.mp hb, [], by simp, by simp⟩
    · rw [if_neg hb] at h
      cases h
  | succ n ih =>
    unfold process_final_deregs_if_any at h
    by_cases hb : s.m_final_dereg_coops.isEmpty
    · rw [if_pos hb] at h
      injection h with h
      subst h
      exact ⟨hh, le_refl _, Iff.rfl, List.isEmpty_iff.mp hb, [], by simp, by simp⟩
    · rw [if_neg hb] at h
      dsimp only at h
      obtain ⟨f1, f2, f3, t1, ht1, hall1⟩ :=
        final_dereg_fold_spec ext s.m_final_dereg_coops
          { s with m_final_dereg_coops := [], held := false } rfl
      obtain ⟨g1, g2, g3, gb, t2, ht2, hall2⟩ := ih _ rfl h
      rw [unlock_do_eq] at h ht2 g2 g3
      refine ⟨g1, ?_, ?_, gb, t1 ++ t2, ?_, ?_⟩
      · exact le_trans f2 g2
      · exact g3.trans f3
      · rw [ht2, ht1, List.append_assoc]
      · intro e he
        rcases List.mem_append.mp he with hm | hm
        · exact hall1 e hm
        · exact hall2 e hm

theorem perform_shutdown_of_completed (ext : ExtBehavior W) {s : St W}
    (h : s.m_shutdown_status = .completed) :
    perform_shutdown_related_actions_if_needed ext s = s := by
  unfold perform_shutdown_related_actions_if_needed
  rw [if_neg (by simp [h]), if_neg (by simp [h])]

theorem perform_shutdown_eq_of_other (ext : ExtBehavior W) {s : St W}
    (h1 : ¬ s.m_shutdown_status = .must_be_started)
    (h2 : ¬ s.m_shutdown_status = .in_progress) :
    perform_shutdown_related_actions_if_needed ext s = s := by
  unfold perform_shutdown_related_actions_if_needed
  dsimp only
  rw [if_neg h1, if_neg h2]

theorem perform_shutdown_eq_of_in_progress (ext : ExtBehavior W) {s : St W}
    (hs : s.m_shutdown_status = .in_progress) :
    perform_shutdown_related_actions_if_needed ext s =
      (if ext.has_live_coop s.world = false then
        { emitExt (.has_live_coop (ext.has_live_coop s.world)) s with
            m_shutdown_status := .completed }
       else emitExt (.has_live_coop (ext.has_live_coop s.world)) s) := by
  unfold perform_shutdown_related_actions_if_needed
  dsimp only
  rw [if_neg (show ¬ s.m_shutdown_status = .must_be_started by simp [hs]),
    if_pos hs]

theorem perform_shutdown_eq_of_must (ext : ExtBehavior W) {s : St W}
    (hs : s.m_shutdown_status = .must_be_started) :
    perform_shutdown_related_actions_if_needed ext s =
      (if (unlock_do (fun s => run_ext_with_callbacks ext
            .deregister_all ext.deregister_all s)
            { s with m_shutdown_status := .in_progress }).m_shutdown_status =
          .in_progress then
        (if ext.has_live_coop (unlock_do (fun s => run_ext_with_callbacks ext
              .deregister_all ext.deregister_all s)
              { s with m_shutdown_status := .in_progress }).world = false then
          { emitExt (.has_live_coop (ext.has_live_coop
              (unlock_do (fun s => run_ext_with_callbacks ext
                .deregister_all ext.deregister_all s)
                { s with m_shutdown_status := .in_progress }).world))
              (unlock_do (fun s => run_ext_with_callbacks ext
                .deregister_all ext.deregister_all s)
                { s with m_shutdown_status := .in_progress }) with
              m_shutdown_status := .completed }
         else emitExt (.has_live_coop (ext.has_live_coop
              (unlock_do (fun s => run_ext_with_callbacks ext
                .deregister_all ext.deregister_all s)
                { s with m_shutdown_status := .in_progress }).world))
              (unlock_do (fun s => run_ext_with_callbacks ext
                .deregister_all ext.deregister_all s)
                { s with m_shutdown_status := .in_progress }))
       else unlock_do (fun s => run_ext_with_callbacks ext
              .deregister_all ext.deregister_all s)
              { s with m_shutdown_status := .in_progress }) := by
  unfold perform_shutdown_related_actions_if_needed
  dsimp only
  rw [if_pos hs]

theorem perform_shutdown_spec (ext : ExtBehavior W) (s : St W)
    (hh : s.held = true) :
    (perform_shutdown_related_actions_if_needed ext s).held = true ∧
    s.m_shutdown_status.toNat ≤
      (perform_shutdown_related_actions_if_needed ext s).m_shutdown_status.toNat ∧
    ∃ t, (perform_shutdown_related_actions_if_needed ext s).trace =
        s.trace ++ t ∧
      ∀ e ∈ t, lockOkB e = true ∧
        (phaseRank e = none ∨ phaseRank e = some 1) := by
  by_cases hs1 : s.m_shutdown_status = .must_be_started
  · rw [perform_shutdown_eq_of_must ext hs1]
    obtain ⟨f1, f2, f3, t1, ht1, hall1⟩ :=
      run_ext_with_callbacks_spec ext .deregister_all ext.deregister_all
        { s with m_shutdown_status := .in_progress, held := false } rfl
    have hs2eq : unlock_do (fun s => run_ext_with_callbacks ext
        .deregister_all ext.deregister_all s)
        { s with m_shutdown_status := .in_progress } =
        { run_ext_with_callbacks ext .deregister_all ext.deregister_all
            { s with m_shutdown_status := .in_progress, held := false } with
          held := true } := by
      rw [unlock_do_eq]
    rw [hs2eq]
    set sr := run_ext_with_callbacks ext .deregister_all ext.deregister_all
      { s with m_shutdown_status := .in_progress, held := false } with hsr
    have hsrstatus : sr.m_shutdown_status = .in_progress := by
      have hnc : ¬ sr.m_shutdown_status = .completed := by
        intro hc
        exact absurd (f3.mp hc) (by simp)
      have h2le : 2 ≤ sr.m_shutdown_status.toNat := by
        simpa [shutdown_status_t.toNat] using f2
      cases hcc : sr.m_shutdown_status <;>
        simp_all [shutdown_status_t.toNat]
    have hcond : ({ sr with held := true } : St W).m_shutdown_status =
        .in_progress := hsrstatus
    rw [if_pos hcond]
    have htr : ({ sr with held := true } : St W).trace =
        s.trace ++ Ev.ext .deregister_all false :: t1 := ht1
    have hev : ∀ e ∈ (Ev.ext .deregister_all false :: t1) ++
        [Ev.ext (.has_live_coop (ext.has_live_coop
          ({ sr with held := true } : St W).world)) true],
        lockOkB e = true ∧ (phaseRank e = none ∨ phaseRank e = some 1) := by
      intro e he
      rcases List.mem_append.mp he with hm | hm
      · rcases List.mem_cons.mp hm with hm | hm
        · rw [hm]
          exact ⟨rfl, Or.inr rfl⟩
        · exact ⟨(hall1 e hm).1, Or.inl (hall1 e hm).2⟩
      · rw [List.mem_singleton.mp hm]
        exact ⟨rfl, Or.inr rfl⟩
    by_cases hr : ext.has_live_coop ({ sr with held := true } : St W).world = false
    · rw [if_pos hr]
      refine ⟨rfl, ?_, (Ev.ext .deregister_all false :: t1) ++
        [Ev.ext (.has_live_coop (ext.has_live_coop
          ({ sr with held := true } : St W).world)) true], ?_, hev⟩
      · rw [hs1]
        simp [shutdown_status_t.toNat]
      · show ({ sr with held := true } : St W).trace ++ _ = _
        rw [htr, List.append_assoc]
    · rw [if_neg hr]
      refine ⟨rfl, ?_, (Ev.ext .deregister_all false :: t1) ++
        [Ev.ext (.has_live_coop (ext.has_live_coop
          ({ sr with held := true } : St W).world)) true], ?_, hev⟩
      · show s.m_shutdown_status.toNat ≤ sr.m_shutdown_status.toNat
        rw [hs1, hsrstatus]
        simp [shutdown_status_t.toNat]
      · show ({ sr with held := true } : St W).trace ++ _ = _
        rw [htr, List.append_assoc]
  · by_cases hs2 : s.m_shutdown_status = .in_progress
    · rw [perform_shutdown_eq_of_in_progress ext hs2]
      have hev : ∀ e ∈ [Ev.ext (.has_live_coop (ext.has_live_coop s.world)) s.held],
          lockOkB e = true ∧ (phaseRank e = none ∨ phaseRank e = some 1) := by
        intro e he
        rw [List.mem_singleton.mp he, hh]
        exact ⟨rfl, Or.inr rfl⟩
      by_cases hr : ext.has_live_coop s.world = false
      · rw [if_pos hr]
        refine ⟨hh, ?_,
          [Ev.ext (.has_live_coop (ext.has_live_coop s.world)) s.held], rfl, hev⟩
        rw [hs2]
        simp [shutdown_status_t.toNat]
      · rw [if_neg hr]
        exact ⟨hh, le_refl _,
          [Ev.ext (.has_live_coop (ext.has_live_coop s.world)) s.held], rfl, hev⟩
    · rw [perform_shutdown_eq_of_other ext hs1 hs2]
      exact ⟨hh, le_refl _, [], by simp, by simp⟩

theorem handle_expired_eq_of_empty {ext : ExtBehavior W} {s : St W}
    (hr : ¬ ext.collector_empty (ext.process_expired s.world) = false) :
    handle_expired_timers_if_any ext s =
      { s with world := ext.process_expired s.world,
               trace := s.trace ++ [Ev.ext .process_expired s.held,
                 Ev.ext (.collector_empty (ext.collector_empty
                   (ext.process_expired s.world))) s.held] } := by
  simp [handle_expired_timers_if_any, emitExt, hr]

theorem handle_expired_eq_of_nonempty {ext : ExtBehavior W} {s : St W}
    (hr : ext.collector_empty (ext.process_expired s.world) = false) :
    handle_expired_timers_if_any ext s =
      unlock_do (fun s => run_ext_with_callbacks ext .collector_process
          ext.collector_process s)
        { s with world := ext.process_expired s.world,
                 trace := s.trace ++ [Ev.ext .process_expired s.held,
                   Ev.ext (.collector_empty (ext.collector_empty
                     (ext.process_expired s.world))) s.held] } := by
  simp [handle_expired_timers_if_any, emitExt, hr]

theorem handle_expired_timers_spec (ext : ExtBehavior W) (s : St W)
    (hh : s.held = true) :
    (handle_expired_timers_if_any ext s).held = true ∧
    s.m_shutdown_status.toNat ≤
      (handle_expired_timers_if_any ext s).m_shutdown_status.toNat ∧
    ((handle_expired_timers_if_any ext s).m_shutdown_status = .completed ↔
      s.m_shutdown_status = .completed) ∧
    ∃ t, (handle_expired_timers_if_any ext s).trace = s.trace ++ t ∧
      ∀ e ∈ t, lockOkB e = true ∧
        (phaseRank e = none ∨ phaseRank e = some 2) := by
  have hev2 : ∀ e ∈ [Ev.ext .process_expired s.held,
      Ev.ext (.collector_empty (ext.collector_empty
        (ext.process_expired s.world))) s.held],
      lockOkB e = true ∧ (phaseRank e = none ∨ phaseRank e = some 2) := by
    intro e he
    rcases List.mem_cons.mp he with hm | hm
    · rw [hm, hh]
      exact ⟨rfl, Or.inr rfl⟩
    · rw [List.mem_singleton.mp hm, hh]
      exact ⟨rfl, Or.inr rfl⟩
  by_cases hr : ext.collector_empty (ext.process_expired s.world) = false
  · rw [handle_expired_eq_of_nonempty hr, unlock_do_eq]
    obtain ⟨f1, f2, f3, t1, ht1, hall1⟩ :=
      run_ext_with_callbacks_spec ext .collector_process ext.collector_process
        { s with world := ext.process_expired s.world,
                 trace := s.trace ++ [Ev.ext .process_expired s.held,
                   Ev.ext (.collector_empty (ext.collector_empty
                     (ext.process_expired s.world))) s.held],
                 held := false } rfl
    refine ⟨rfl, f2, f3, [Ev.ext .process_expired s.held,
      Ev.ext (.collector_empty (ext.collector_empty
        (ext.process_expired s.world))) s.held] ++
      Ev.ext .collector_process false :: t1, ?_, ?_⟩
    · show (run_ext_with_callbacks ext .collector_process ext.collector_process
        _).trace = _
      rw [ht1]
      show (s.trace ++ [Ev.ext .process_expired s.held,
        Ev.ext (.collector_empty (ext.collector_empty
          (ext.process_expired s.world))) s.held]) ++ _ = _
      rw [List.append_assoc]
    · intro e he
      rcases List.mem_append.mp he with hm | hm
      · exact hev2 e hm
      · rcases List.mem_cons.mp hm with hm | hm
        · rw [hm]
          exact ⟨rfl, Or.inr rfl⟩
        · exact ⟨(hall1 e hm).1, Or.inl (hall1 e hm).2⟩
  · rw [handle_expired_eq_of_empty hr]
    exact ⟨hh, le_refl _, Iff.rfl, [Ev.ext .process_expired s.held,
      Ev.ext (.collector_empty (ext.collector_empty
        (ext.process_expired s.world))) s.held],
      rfl, hev2⟩

theorem try_handle_next_demand_spec (ext : ExtBehavior W) (s : St W)
    (hh : s.held = true) :
    (try_handle_next_demand ext s).held = true ∧
    s.m_shutdown_status.toNat ≤
      (try_handle_next_demand ext s).m_shutdown_status.toNat ∧
    ((try_handle_next_demand ext s).m_shutdown_status = .completed ↔
      s.m_shutdown_status = .completed) ∧
    ∃ t, (try_handle_next_demand ext s).trace = s.trace ++ t ∧
      ∀ e ∈ t, lockOkB e = true ∧
        (phaseRank e = none ∨ phaseRank e = some 3) := by
  unfold try_handle_next_demand
  cases hp : s.m_event_queue.pop with
  | none =>
    dsimp only
    by_cases hb : s.m_final_dereg_coops.isEmpty
    · rw [if_pos hb]
      refine ⟨hh, le_refl _, Iff.rfl,
        [Ev.ext .timeout_before_nearest s.held,
          Ev.sleep (ext.timeout_before_nearest 60000 s.world)],
        by simp [emitExt], ?_⟩
      intro e he
      rcases List.mem_cons.mp he with hm | hm
      · rw [hm, hh]
        exact ⟨rfl, Or.inr rfl⟩
      · rw [List.mem_singleton.mp hm]
        exact ⟨rfl, Or.inr rfl⟩
    · rw [if_neg hb]
      exact ⟨hh, le_refl _, Iff.rfl, [], by simp, by simp⟩
  | some r =>
    dsimp only
    rw [unlock_do_eq]
    obtain ⟨f1, f2, f3, t1, ht1, hall1⟩ :=
      run_ext_with_callbacks_spec ext (.dispatcher_handle r.1)
        (ext.dispatcher_handle r.1)
        { s with m_event_queue := r.2, held := false } rfl
    refine ⟨rfl, f2, f3, Ev.ext (.dispatcher_handle r.1) false :: t1, ht1, ?_⟩
    intro e he
    rcases List.mem_cons.mp he with hm | hm
    · rw [hm]
      exact ⟨rfl, Or.inr rfl⟩
    · exact ⟨(hall1 e hm).1, Or.inl (hall1 e hm).2⟩

theorem filterMap_rank_all {t : List Ev} {k : Nat}
    (h : ∀ e ∈ t, phaseRank e = none ∨ phaseRank e = some k) :
    ∀ x ∈ t.filterMap phaseRank, x = k := by
  intro x hx
  obtain ⟨e, he, hex⟩ := List.mem_filterMap.mp hx
  rcases h e he with h0 | h0 <;> simp_all

theorem pairwise_le_of_all_eq {l : List Nat} {k : Nat}
    (h : ∀ x ∈ l, x = k) : l.Pairwise (· ≤ ·) := by
  induction l with
  | nil => exact List.Pairwise.nil
  | cons a l ih =>
    refine List.Pairwise.cons ?_ (ih fun x hx => h x (List.mem_cons_of_mem a hx))
    intro b hb
    rw [h a (List.mem_cons_self a l), h b (List.mem_cons_of_mem a hb)]

theorem pairwise_rank_two {t0 t1 : List Ev} {j k : Nat} (hjk : j ≤ k)
    (h0 : ∀ e ∈ t0, phaseRank e = none ∨ phaseRank e = some j)
    (h1 : ∀ e ∈ t1, phaseRank e = none ∨ phaseRank e = some k) :
    ((t0 ++ t1).filterMap phaseRank).Pairwise (· ≤ ·) := by
  rw [List.filterMap_append]
  refine List.pairwise_append.mpr
    ⟨pairwise_le_of_all_eq (filterMap_rank_all h0),
     pairwise_le_of_all_eq (filterMap_rank_all h1), ?_⟩
  intro a ha b hb
  rw [filterMap_rank_all h0 a ha, filterMap_rank_all h1 b hb]
  exact hjk

theorem pairwise_rank_four {t0 t1 t2 t3 : List Ev}
    (h0 : ∀ e ∈ t0, phaseRank e = none ∨ phaseRank e = some 0)
    (h1 : ∀ e ∈ t1, phaseRank e = none ∨ phaseRank e = some 1)
    (h2 : ∀ e ∈ t2, phaseRank e = none ∨ phaseRank e = some 2)
    (h3 : ∀ e ∈ t3, phaseRank e = none ∨ phaseRank e = some 3) :
    ((t0 ++ (t1 ++ (t2 ++ t3))).filterMap phaseRank).Pairwise (· ≤ ·) := by
  rw [List.filterMap_append, List.filterMap_append, List.filterMap_append]
  refine List.pairwise_append.mpr
    ⟨pairwise_le_of_all_eq (filterMap_rank_all h0), ?_, ?_⟩
  · refine List.pairwise_append.mpr
      ⟨pairwise_le_of_all_eq (filterMap_rank_all h1), ?_, ?_⟩
    · refine List.pairwise_append.mpr
        ⟨pairwise_le_of_all_eq (filterMap_rank_all h2),
         pairwise_le_of_all_eq (filterMap_rank_all h3), ?_⟩
      intro a ha b hb
      rw [filterMap_rank_all h2 a ha, filterMap_rank_all h3 b hb]
      exact by omega
    · intro a ha b hb
      rcases List.mem_append.mp hb with hm | hm
      · rw [filterMap_rank_all h1 a ha, filterMap_rank_all h2 b hm]
        exact by omega
      · rw [filterMap_rank_all h1 a ha, filterMap_rank_all h3 b hm]
        exact by omega
  · intro a ha b hb
    rw [filterMap_rank_all h0 a ha]
    exact Nat.zero_le b

theorem run_main_loop_iteration_spec (ext : ExtBehavior W) (dfuel : Nat)
    (s s' : St W) (ex : Bool) (hh : s.held = true)
    (h : run_main_loop_iteration ext dfuel s = some (s', ex)) :
    s'.held = true ∧
    s.m_shutdown_status.toNat ≤ s'.m_shutdown_status.toNat ∧
    (ex = true → s'.m_shutdown_status = .completed) ∧
    (s.m_shutdown_status = .completed → ex = true) ∧
    ∃ t, s'.trace = s.trace ++ t ∧
      (∀ e ∈ t, lockOkB e = true) ∧
      (t.filterMap phaseRank).Pairwise (· ≤ ·) ∧
      (ex = true → ∀ e ∈ t, phaseRank e = none ∨
        ∃ k, phaseRank e = some k ∧ k ≤ 1) := by
  unfold run_main_loop_iteration at h
  cases hd : process_final_deregs_if_any ext dfuel s with
  | none =>
    rw [hd] at h
    cases h
  | some s1 =>
    rw [hd] at h
    dsimp only at h
    obtain ⟨d1, d2, d3, d4, td, htd, halld⟩ :=
      process_final_deregs_spec ext dfuel s s1 hh hd
    obtain ⟨p1, p2, tp, htp, hallp⟩ := perform_shutdown_spec ext s1 d1
    by_cases hc : (perform_shutdown_related_actions_if_needed ext
        s1).m_shutdown_status = .completed
    · rw [if_pos hc] at h
      injection h with h
      injection h with ha hb
      subst ha
      subst hb
      refine ⟨p1, le_trans d2 p2, fun _ => hc, fun _ => rfl,
        td ++ tp, ?_, ?_, ?_, ?_⟩
      · rw [htp, htd, List.append_assoc]
      · intro e he
        rcases List.mem_append.mp he with hm | hm
        · exact (halld e hm).1
        · exact (hallp e hm).1
      · exact pairwise_rank_two (by omega)
          (fun e he => (halld e he).2) (fun e he => (hallp e he).2)
      · intro _ e he
        rcases List.mem_append.mp he with hm | hm
        · rcases (halld e hm).2 with h0 | h0
          · exact Or.inl h0
          · exact Or.inr ⟨0, h0, by omega⟩
        · rcases (hallp e hm).2 with h0 | h0
          · exact Or.inl h0
          · exact Or.inr ⟨1, h0, by omega⟩
    · rw [if_neg hc] at h
      obtain ⟨e1, e2, e3, te, hte, halle⟩ :=
        handle_expired_timers_spec ext
          (perform_shutdown_related_actions_if_needed ext s1) p1
      obtain ⟨q1, q2, q3, tq, htq, hallq⟩ :=
        try_handle_next_demand_spec ext
          (handle_expired_timers_if_any ext
            (perform_shutdown_related_actions_if_needed ext s1)) e1
      injection h with h
      injection h with ha hb
      subst ha
      subst hb
      refine ⟨q1, le_trans d2 (le_trans p2 (le_trans e2 q2)),
        fun habs => absurd habs (by simp), ?_,
        td ++ (tp ++ (te ++ tq)), ?_, ?_, ?_, ?_⟩
      · intro hcs
        exact absurd (by
          rw [perform_shutdown_of_completed ext (d3.mpr hcs)]
          exact d3.mpr hcs) hc
      · rw [htq, hte, htp, htd]
        rw [List.append_assoc, List.append_assoc, List.append_assoc]
      · intro e he
        rcases List.mem_append.mp he with hm | hm
        · exact (halld e hm).1
        rcases List.mem_append.mp hm with hm | hm
        · exact (hallp e hm).1
        rcases List.mem_append.mp hm with hm | hm
        · exact (halle e hm).1
        · exact (hallq e hm).1
      · exact pairwise_rank_four (fun e he => (halld e he).2)
          (fun e he => (hallp e he).2) (fun e he => (halle e he).2)
          (fun e he => (hallq e he).2)
      · intro habs
        exact absurd habs (by simp)

theorem main_loop_iterations_spec (ext : ExtBehavior W) (dfuel fuel : Nat)
    (s s' : St W) (hh : s.held = true)
    (h : main_loop_iterations ext dfuel fuel s = some s') :
    s'.held = true ∧
    s.m_shutdown_status.toNat ≤ s'.m_shutdown_status.toNat ∧
    s'.m_shutdown_status = .completed ∧
    ∃ t, s'.trace = s.trace ++ t ∧ (∀ e ∈ t, lockOkB e = true) := by
  induction fuel generalizing s with
  | zero =>
    cases h
  | succ n ih =>
    unfold main_loop_iterations at h
    cases hi : run_main_loop_iteration ext dfuel s with
    | none =>
      rw [hi] at h
      cases h
    | some r =>
      rw [hi] at h
      obtain ⟨s1, ex⟩ := r
      obtain ⟨i1, i2, i3, i4, t1, ht1, hall1, hpw1, hex1⟩ :=
        run_main_loop_iteration_spec ext dfuel s s1 ex hh hi
      cases ex with
      | true =>
        dsimp only at h
        injection h with h
        subst h
        exact ⟨i1, i2, i3 rfl, t1, ht1, hall1⟩
      | false =>
        dsimp only at h
        obtain ⟨g1, g2, g3, t2, ht2, hall2⟩ := ih s1 i1 h
        refine ⟨g1, le_trans i2 g2, g3, t1 ++ t2, ?_, ?_⟩
        · rw [ht2, ht1, List.append_assoc]
        · intro e he
          rcases List.mem_append.mp he with hm | hm
          · exact hall1 e hm
          · exact hall2 e hm

theorem run_main_loop_spec (ext : ExtBehavior W) (dfuel fuel : Nat)
    (s s' : St W) (h : run_main_loop ext dfuel fuel s = some s') :
    s'.held = false ∧
    s'.m_shutdown_status = .completed ∧
    s.m_shutdown_status.toNat ≤ s'.m_shutdown_status.toNat ∧
    ∃ t, s'.trace = s.trace ++ t ∧ (∀ e ∈ t, lockOkB e = true) := by
  unfold run_main_loop at h
  rcases Option.map_eq_some'.mp h with ⟨x, hx, hfx⟩
  obtain ⟨g1, g2, g3, t, ht, hall⟩ :=
    main_loop_iterations_spec ext dfuel fuel { s with held := true } x rfl hx
  subst hfx
  exact ⟨rfl, g3, g2, t, ht, hall⟩

/-- C1: if the init function passed to launch fails, the main loop
nevertheless runs to completion — a stop is initiated on the state the
failing init left behind and the loop is entered on that stopped state —
and whenever the launch body returns, the shutdown status has reached
`completed` and the failure reported to the caller is exactly the init
function's own failure (none when init succeeded), surfaced only after the
loop has finished. -/
theorem launch_init_failure_drains_before_rethrow :
    ∀ (W : Type) (ext : ExtBehavior W) (dfuel fuel : Nat)
      (init_fn : St W → St W × Option Nat) (s s' : St W) (exc : Option Nat),
    run_user_supplied_init_and_do_main_loop ext dfuel fuel init_fn s =
      some (s', exc) →
    s'.m_shutdown_status = .completed ∧
    exc = (init_fn s).2 ∧
    (∀ e, (init_fn s).2 = some e →
      run_main_loop ext dfuel fuel (stop (init_fn s).1) = some s') := by
  intro W ext dfuel fuel init_fn s s' exc h
  unfold run_user_supplied_init_and_do_main_loop at h
  dsimp only at h
  cases hexc : (init_fn s).2 with
  | none =>
    rw [hexc] at h
    cases hrun : run_main_loop ext dfuel fuel (init_fn s).1 with
    | none =>
      rw [hrun] at h
      cases h
    | some s2 =>
      rw [hrun] at h
      injection h with h
      injection h with ha hb
      subst ha
      subst hb
      refine ⟨(run_main_loop_spec ext dfuel fuel _ _ hrun).2.1, rfl, ?_⟩
      intro e he
      exact Option.noConfusion he
  | some e0 =>
    rw [hexc] at h
    cases hrun : run_main_loop ext dfuel fuel (stop (init_fn s).1) with
    | none =>
      rw [hrun] at h
      cases h
    | some s2 =>
      rw [hrun] at h
      injection h with h
      injection h with ha hb
      subst ha
      subst hb
      exact ⟨(run_main_loop_spec ext dfuel fuel _ _ hrun).2.1, rfl,
        fun e he => rfl⟩

theorem stop_stop {s : St W} (hh : s.held = false) :
    stop (stop s) = stop s := by
  by_cases h : s.m_shutdown_status = .not_started
  · have h1 : (stop s).m_shutdown_status = .must_be_started := by
      rw [stop_eq_of_not_started h]
    have h2 : (stop s).held = false := by
      rw [stop_eq_of_not_started h]
    rw [stop_eq_of_ne (by rw [h1]; simp), set_held_false_eq_self h2]
  · rw [stop_eq_of_ne h, set_held_false_eq_self hh,
      stop_eq_of_ne h, set_held_false_eq_self hh]

theorem popAll_mk (l : List Nat) : popAll ⟨l⟩ = l := by
  induction l with
  | nil =>
    rw [popAll]
    simp [event_queue_impl_t.pop]
  | cons d rest ih =>
    rw [popAll]
    simp only [event_queue_impl_t.pop]
    rw [ih]

theorem pushAll_demands (ds : List Nat) (s : St W) :
    (pushAll ds s).m_event_queue.m_demands =
      s.m_event_queue.m_demands ++ ds := by
  induction ds generalizing s with
  | nil => simp [pushAll]
  | cons d rest ih =>
    show (pushAll rest (push d s)).m_event_queue.m_demands = _
    rw [ih, push_eq]
    simp

/-- C2: for every action executed through the scoped-unlock utility with an
already-acquired lock, the action runs on the state with the lock released,
the lock is reacquired before control returns on every exit path, and the
action's result — including a failure — is re-signalled unchanged together
with the already-relocked state. -/
theorem scoped_unlock_spec :
    ∀ (W ε α : Type) (action : St W → Except ε α × St W) (s : St W),
    s.held = true →
    ((unlock_do_and_lock_again action s).2.held = true ∧
     (unlock_do_and_lock_again action s).1 =
       (action { s with held := false }).1 ∧
     (unlock_do_and_lock_again action s).2 =
       { (action { s with held := false }).2 with held := true }) :=
  fun _ _ _ _ _ _ => ⟨rfl, rfl, rfl⟩

theorem scoped_unlock_spec_witness :
    ({ initial_state () with held := true } : St Unit).held = true ∧
    ((unlock_do_and_lock_again
        (fun (s : St Unit) => ((Except.error 5 : Except Nat Unit), s))
        ({ initial_state () with held := true } : St Unit)).2.held = true ∧
     (unlock_do_and_lock_again
        (fun (s : St Unit) => ((Except.error 5 : Except Nat Unit), s))
        ({ initial_state () with held := true } : St Unit)).1 =
       ((fun (s : St Unit) => ((Except.error 5 : Except Nat Unit), s))
         { ({ initial_state () with held := true } : St Unit) with
             held := false }).1 ∧
     (unlock_do_and_lock_again
        (fun (s : St Unit) => ((Except.error 5 : Except Nat Unit), s))
        ({ initial_state () with held := true } : St Unit)).2 =
       { ((fun (s : St Unit) => ((Except.error 5 : Except Nat Unit), s))
           { ({ initial_state () with held := true } : St Unit) with
               held := false }).2 with held := true }) :=
  ⟨rfl, scoped_unlock_spec Unit Nat Unit
    (fun (s : St Unit) => ((Except.error 5 : Except Nat Unit), s))
    { initial_state () with held := true } rfl⟩

/-- C6: the event queue is strict FIFO: `push` appends at the tail, `pop`
removes from the head, and extracting everything after pushing a sequence
of demands yields the earlier queue contents followed by the pushed
demands in push order — so a demand whose push fully precedes another's is
popped first. -/
theorem event_queue_fifo :
    ∀ (W : Type) (s : St W) (d : Nat) (ds : List Nat) (rest : List Nat),
    (push d s).m_event_queue.m_demands =
      s.m_event_queue.m_demands ++ [d] ∧
    event_queue_impl_t.pop ⟨[]⟩ = none ∧
    event_queue_impl_t.pop ⟨d :: rest⟩ = some (d, ⟨rest⟩) ∧
    popAll (pushAll ds s).m_event_queue =
      s.m_event_queue.m_demands ++ ds := by
  intro W s d ds rest
  refine ⟨by rw [push_eq], rfl, rfl, ?_⟩
  have hq : (pushAll ds s).m_event_queue =
      ⟨s.m_event_queue.m_demands ++ ds⟩ := by
    cases hqq : (pushAll ds s).m_event_queue with
    | mk l =>
      have := pushAll_demands ds s
      rw [hqq] at this
      simp only at this
      rw [this]
  rw [hq, popAll_mk]

/-- C8: `stop()` is idempotent: when the shutdown status is `not_started`
it advances it to `must_be_started` and issues `wakeup_if_waiting` (a
notify exactly when the worker is waiting); in any other state it is a
no-op; iterating `stop` any positive number of times equals calling it
once; and the shutdown status never regresses. -/
theorem stop_idempotent_spec :
    ∀ (W : Type) (s : St W), s.held = false →
    ((s.m_shutdown_status = .not_started →
       (stop s).m_shutdown_status = .must_be_started ∧
       (stop s).trace = s.trace ++
         (if s.m_status = .waiting then [Ev.notify] else [])) ∧
     (¬ s.m_shutdown_status = .not_started → stop s = s) ∧
     (∀ n, 0 < n → stop^[n] s = stop s) ∧
     s.m_shutdown_status.toNat ≤ (stop s).m_shutdown_status.toNat) := by
  intro W s hh
  refine ⟨?_, ?_, ?_, ?_⟩
  · intro h
    rw [stop_eq_of_not_started h]
    exact ⟨rfl, rfl⟩
  · intro h
    rw [stop_eq_of_ne h, set_held_false_eq_self hh]
  · intro n hn
    induction n with
    | zero => cases hn
    | succ m ih =>
      cases Nat.eq_zero_or_pos m with
      | inl h0 =>
        subst h0
        rw [Function.iterate_one]
      | inr hpos =>
        rw [Function.iterate_succ_apply', ih hpos, stop_stop hh]
  · by_cases h : s.m_shutdown_status = .not_started
    · rw [stop_eq_of_not_started h, h]
      simp [shutdown_status_t.toNat]
    · rw [stop_eq_of_ne h]

theorem stop_idempotent_spec_witness :
    (initial_state () : St Unit).held = false ∧
    (((initial_state () : St Unit).m_shutdown_status = .not_started →
       (stop (initial_state () : St Unit)).m_shutdown_status =
         .must_be_started ∧
       (stop (initial_state () : St Unit)).trace =
         (initial_state () : St Unit).trace ++
           (if (initial_state () : St Unit).m_status = .waiting then
             [Ev.notify] else [])) ∧
     (¬ (initial_state () : St Unit).m_shutdown_status = .not_started →
       stop (initial_state ()) = initial_state ()) ∧
     (∀ n, 0 < n → stop^[n] (initial_state () : St Unit) =
       stop (initial_state ())) ∧
     (initial_state () : St Unit).m_shutdown_status.toNat ≤
       (stop (initial_state () : St Unit)).m_shutdown_status.toNat) :=
  ⟨rfl, stop_idempotent_spec Unit (initial_state ()) rfl⟩

/-- C10: `query_coop_repository_stats` locks the core mutex, queries the
repository statistics while holding the lock, and returns in one snapshot
of that locked state the repository's total cooperation count, its total
agent count, and the current length of the final-deregistration backlog;
the guarded state itself is left unchanged except for the recorded
collaborator call. -/
theorem query_coop_repository_stats_spec :
    ∀ (W : Type) (ext : ExtBehavior W) (s : St W),
    (query_coop_repository_stats ext s).1 =
      ⟨(ext.repo_query_stats s.world).1, (ext.repo_query_stats s.world).2,
       s.m_final_dereg_coops.length⟩ ∧
    (query_coop_repository_stats ext s).2 =
      { s with held := false,
               trace := s.trace ++ [Ev.ext .repo_query_stats true] } :=
  fun _ _ _ => ⟨rfl, rfl⟩

/-- C7 (counterexample): it is not the case that every call into an
external collaborator happens without the core lock: `schedule_timer`
invokes the timer manager's `schedule` while holding the lock, as the
recorded event of a concrete run shows. -/
theorem external_call_under_lock_counterexample :
    ¬ (∀ e ∈ (schedule_timer trivialExt (initial_state ())).trace,
        extCallUnlocked e = true) := by
  decide

/-- C5: the shutdown status is strictly monotone over the order
NotStarted < MustStart < InProgress < Completed: the fresh state starts at
`not_started`; `stop` and every producer entry point never decrease the
ordinal (the producer entry points leave it unchanged); a main-loop
iteration never decreases it; and once the status is `completed`, the next
iteration exits the loop. -/
theorem shutdown_status_monotonic :
    (∀ (W : Type) (w : W),
      (initial_state w).m_shutdown_status = .not_started) ∧
    (∀ (W : Type) (s : St W),
      s.m_shutdown_status.toNat ≤ (stop s).m_shutdown_status.toNat) ∧
    (∀ (W : Type) (d : Nat) (s : St W),
      (push d s).m_shutdown_status = s.m_shutdown_status) ∧
    (∀ (W : Type) (c : Nat) (s : St W),
      (ready_to_deregister_notify c s).m_shutdown_status =
        s.m_shutdown_status) ∧
    (∀ (W : Type) (ext : ExtBehavior W) (s : St W),
      (schedule_timer ext s).m_shutdown_status = s.m_shutdown_status) ∧
    (∀ (W : Type) (ext : ExtBehavior W) (s : St W),
      (single_timer ext s).m_shutdown_status = s.m_shutdown_status) ∧
    (∀ (W : Type) (ext : ExtBehavior W) (dfuel : Nat) (s s' : St W)
      (ex : Bool), s.held = true →
      run_main_loop_iteration ext dfuel s = some (s', ex) →
      s.m_shutdown_status.toNat ≤ s'.m_shutdown_status.toNat) ∧
    (∀ (W : Type) (ext : ExtBehavior W) (dfuel : Nat) (s s' : St W)
      (ex : Bool), s.held = true → s.m_shutdown_status = .completed →
      run_main_loop_iteration ext dfuel s = some (s', ex) → ex = true) := by
  refine ⟨fun W w => rfl, ?_, ?_, ?_, ?_, ?_, ?_, ?_⟩
  · intro W s
    by_cases h : s.m_shutdown_status = .not_started
    · rw [stop_eq_of_not_started h, h]
      simp [shutdown_status_t.toNat]
    · rw [stop_eq_of_ne h]
  · intro W d s
    rw [push_eq]
  · intro W c s
    rw [ready_to_deregister_notify_eq]
  · intro W ext s
    rw [schedule_timer_eq]
  · intro W ext s
    rw [single_timer_eq]
  · intro W ext dfuel s s' ex hh h
    exact (run_main_loop_iteration_spec ext dfuel s s' ex hh h).2.1
  · intro W ext dfuel s s' ex hh hc h
    exact (run_main_loop_iteration_spec ext dfuel s s' ex hh h).2.2.2.1 hc

theorem shutdown_status_monotonic_witness :
    ({ initial_state () with
        held := true, m_shutdown_status := .completed } : St Unit).held = true ∧
    ({ initial_state () with
        held := true, m_shutdown_status := .completed } : St Unit).m_shutdown_status =
      .completed ∧
    run_main_loop_iteration trivialExt 1
      ({ initial_state () with
          held := true, m_shutdown_status := .completed } : St Unit) =
      some ({ initial_state () with
          held := true, m_shutdown_status := .completed }, true) ∧
    ({ initial_state () with
        held := true, m_shutdown_status := .completed } : St Unit).m_shutdown_status.toNat ≤
      ({ initial_state () with
          held := true, m_shutdown_status := .completed } : St Unit).m_shutdown_status.toNat ∧
    true = true :=
  ⟨rfl, rfl, by decide,
   shutdown_status_monotonic.2.2.2.2.2.2.1 Unit trivialExt 1
     { initial_state () with held := true, m_shutdown_status := .completed }
     { initial_state () with held := true, m_shutdown_status := .completed }
     true rfl (by decide),
   shutdown_status_monotonic.2.2.2.2.2.2.2 Unit trivialExt 1
     { initial_state () with held := true, m_shutdown_status := .completed }
     { initial_state () with held := true, m_shutdown_status := .completed }
     true rfl rfl (by decide)⟩

/-- C4: within one iteration of the main loop (started with an empty
trace), the observable steps happen in the fixed order: all
final-deregistration calls precede the shutdown evaluation, which precedes
the timer delivery, which precedes demand dispatch or the idle sleep (the
phase ranks along the trace are non-decreasing); and when the iteration
exits because the shutdown status is `completed`, no timer or demand work
appears in the iteration at all. -/
theorem main_loop_iteration_step_order :
    ∀ (W : Type) (ext : ExtBehavior W) (dfuel : Nat) (s s' : St W)
      (ex : Bool),
    s.held = true → s.trace = [] →
    run_main_loop_iteration ext dfuel s = some (s', ex) →
    ((s'.trace.filterMap phaseRank).Pairwise (· ≤ ·) ∧
     (ex = true → ∀ e ∈ s'.trace, phaseRank e = none ∨
       ∃ k, phaseRank e = some k ∧ k ≤ 1)) := by
  intro W ext dfuel s s' ex hh htr h
  obtain ⟨_, _, _, _, t, ht, _, hpw, hex⟩ :=
    run_main_loop_iteration_spec ext dfuel s s' ex hh h
  rw [ht, htr]
  simp only [List.nil_append]
  exact ⟨hpw, hex⟩

theorem main_loop_iteration_step_order_witness :
    ({ initial_state () with
        held := true, m_shutdown_status := .must_be_started } : St Unit).held = true ∧
    ({ initial_state () with
        held := true, m_shutdown_status := .must_be_started } : St Unit).trace = [] ∧
    run_main_loop_iteration trivialExt 1
      ({ initial_state () with
          held := true, m_shutdown_status := .must_be_started } : St Unit) =
      some (St.mk true .working [] .completed ⟨[]⟩ ()
        [Ev.ext .deregister_all false, Ev.ext (.has_live_coop false) true],
        true) ∧
    (((St.mk true .working [] .completed ⟨[]⟩ ()
        [Ev.ext .deregister_all false, Ev.ext (.has_live_coop false) true]
        : St Unit).trace.filterMap phaseRank).Pairwise (· ≤ ·) ∧
     (true = true → ∀ e ∈ (St.mk true .working [] .completed ⟨[]⟩ ()
        [Ev.ext .deregister_all false, Ev.ext (.has_live_coop false) true]
        : St Unit).trace, phaseRank e = none ∨
       ∃ k, phaseRank e = some k ∧ k ≤ 1)) :=
  ⟨rfl, rfl, by decide,
   main_loop_iteration_step_order Unit trivialExt 1
     { initial_state () with
         held := true, m_shutdown_status := .must_be_started }
     (St.mk true .working [] .completed ⟨[]⟩ ()
       [Ev.ext .deregister_all false, Ev.ext (.has_live_coop false) true])
     true rfl rfl (by decide)⟩

/-- C7 (amended): calls into external collaborators made from the
scoped-unlock windows — the dispatcher's demand handling, the repository's
`deregister_all` and `final_deregister`, and the collector's `process` —
happen strictly without the core lock, while the remaining collaborator
calls — the timer manager's operations, the repository's `has_live_coop`
and statistics queries, and the collector's emptiness check — are made
while the core lock is held; this discipline (`lockOkB`) holds for every
event of every trace produced by a main-loop iteration, the whole main
loop, and every thread-safe entry point. -/
theorem external_calls_lock_discipline :
    (∀ (W : Type) (ext : ExtBehavior W) (dfuel : Nat) (s s' : St W)
      (ex : Bool), s.held = true → (∀ e ∈ s.trace, lockOkB e = true) →
      run_main_loop_iteration ext dfuel s = some (s', ex) →
      ∀ e ∈ s'.trace, lockOkB e = true) ∧
    (∀ (W : Type) (ext : ExtBehavior W) (dfuel fuel : Nat) (s s' : St W),
      (∀ e ∈ s.trace, lockOkB e = true) →
      run_main_loop ext dfuel fuel s = some s' →
      ∀ e ∈ s'.trace, lockOkB e = true) ∧
    (∀ (W : Type) (d : Nat) (s : St W), (∀ e ∈ s.trace, lockOkB e = true) →
      ∀ e ∈ (push d s).trace, lockOkB e = true) ∧
    (∀ (W : Type) (s : St W), (∀ e ∈ s.trace, lockOkB e = true) →
      ∀ e ∈ (stop s).trace, lockOkB e = true) ∧
    (∀ (W : Type) (c : Nat) (s : St W), (∀ e ∈ s.trace, lockOkB e = true) →
      ∀ e ∈ (ready_to_deregister_notify c s).trace, lockOkB e = true) ∧
    (∀ (W : Type) (ext : ExtBehavior W) (s : St W),
      (∀ e ∈ s.trace, lockOkB e = true) →
      ∀ e ∈ (schedule_timer ext s).trace, lockOkB e = true) ∧
    (∀ (W : Type) (ext : ExtBehavior W) (s : St W),
      (∀ e ∈ s.trace, lockOkB e = true) →
      ∀ e ∈ (single_timer ext s).trace, lockOkB e = true) ∧
    (∀ (W : Type) (ext : ExtBehavior W) (s : St W),
      (∀ e ∈ s.trace, lockOkB e = true) →
      ∀ e ∈ (query_coop_repository_stats ext s).2.trace,
        lockOkB e = true) := by
  refine ⟨?_, ?_, ?_, ?_, ?_, ?_, ?_, ?_⟩
  · intro W ext dfuel s s' ex hh hpre h e he
    obtain ⟨_, _, _, _, t, ht, hall, _, _⟩ :=
      run_main_loop_iteration_spec ext dfuel s s' ex hh h
    rw [ht] at he
    rcases List.mem_append.mp he with hm | hm
    · exact hpre e hm
    · exact hall e hm
  · intro W ext dfuel fuel s s' hpre h e he
    obtain ⟨_, _, _, t, ht, hall⟩ := run_main_loop_spec ext dfuel fuel s s' h
    rw [ht] at he
    rcases List.mem_append.mp he with hm | hm
    · exact hpre e hm
    · exact hall e hm
  · intro W d s hpre e he
    rw [push_eq] at he
    rcases List.mem_append.mp he with hm | hm
    · exact hpre e hm
    · rw [mem_notify_if hm]
      rfl
  · intro W s hpre e he
    by_cases h : s.m_shutdown_status = .not_started
    · rw [stop_eq_of_not_started h] at he
      rcases List.mem_append.mp he with hm | hm
      · exact hpre e hm
      · rw [mem_notify_if hm]
        rfl
    · rw [stop_eq_of_ne h] at he
      exact hpre e he
  · intro W c s hpre e he
    rw [ready_to_deregister_notify_eq] at he
    rcases List.mem_append.mp he with hm | hm
    · exact hpre e hm
    · rw [mem_notify_if hm]
      rfl
  · intro W ext s hpre e he
    rw [schedule_timer_eq] at he
    rcases List.mem_append.mp he with hm | hm
    · rcases List.mem_append.mp hm with hm2 | hm2
      · exact hpre e hm2
      · rw [List.mem_singleton.mp hm2]
        rfl
    · rw [mem_notify_if hm]
      rfl
  · intro W ext s hpre e he
    rw [single_timer_eq] at he
    rcases List.mem_append.mp he with hm | hm
    · rcases List.mem_append.mp hm with hm2 | hm2
      · exact hpre e hm2
      · rw [List.mem_singleton.mp hm2]
        rfl
    · rw [mem_notify_if hm]
      rfl
  · intro W ext s hpre e he
    have : (query_coop_repository_stats ext s).2.trace =
        s.trace ++ [Ev.ext .repo_query_stats true] := rfl
    rw [this] at he
    rcases List.mem_append.mp he with hm | hm
    · exact hpre e hm
    · rw [List.mem_singleton.mp hm]
      rfl

theorem external_calls_lock_discipline_witness :
    (∀ e ∈ (initial_state () : St Unit).trace, lockOkB e = true) ∧
    (∀ e ∈ (schedule_timer trivialExt (initial_state ())).trace,
      lockOkB e = true) :=
  ⟨by decide,
   external_calls_lock_discipline.2.2.2.2.2.1 Unit trivialExt
     (initial_state ()) (by decide)⟩

theorem launch_init_failure_drains_before_rethrow_witness :
    run_user_supplied_init_and_do_main_loop trivialExt 1 2
      (fun (s : St Unit) => (s, some 7)) (initial_state ()) =
      some (St.mk false .working [] .completed ⟨[]⟩ ()
        [Ev.ext .deregister_all false, Ev.ext (.has_live_coop false) true],
        some 7) ∧
    ((St.mk false .working [] .completed ⟨[]⟩ ()
        [Ev.ext .deregister_all false, Ev.ext (.has_live_coop false) true]
        : St Unit).m_shutdown_status = .completed ∧
     (some 7 : Option Nat) =
       ((fun (s : St Unit) => (s, some 7)) (initial_state ())).2 ∧
     (∀ e, ((fun (s : St Unit) => (s, some 7)) (initial_state ())).2 =
        some e →
       run_main_loop trivialExt 1 2
         (stop ((fun (s : St Unit) => (s, some 7)) (initial_state ())).1) =
         some (St.mk false .working [] .completed ⟨[]⟩ ()
           [Ev.ext .deregister_all false,
            Ev.ext (.has_live_coop false) true]))) :=
  ⟨by decide,
   launch_init_failure_drains_before_rethrow Unit trivialExt 1 2
     (fun (s : St Unit) => (s, some 7)) (initial_state ())
     (St.mk false .working [] .completed ⟨[]⟩ ()
       [Ev.ext .deregister_all false, Ev.ext (.has_live_coop false) true])
     (some 7) (by decide)⟩

theorem emitReadies_fold_spec (rs : List Nat) (p : SpecW × List Callback) :
    (rs.foldl emitReadiesStep p).1.live = p.1.live ∧
    (∀ c ∈ p.1.notified, c ∈ (rs.foldl emitReadiesStep p).1.notified) ∧
    (∀ c ∈ (rs.foldl emitReadiesStep p).1.notified,
      c ∈ p.1.notified ∨ (c ∈ p.1.live ∧ c ∉ p.1.notified)) ∧
    (p.1.notified.Nodup → (rs.foldl emitReadiesStep p).1.notified.Nodup) ∧
    ∃ tl, (rs.foldl emitReadiesStep p).2 = p.2 ++ tl ∧
      (∀ cb ∈ tl, ∃ c, cb = Callback.ready_to_deregister_notify c ∧
        c ∈ (rs.foldl emitReadiesStep p).1.notified ∧ c ∉ p.1.notified) ∧
      (p.1.notified.Nodup → (readyCoops tl).Nodup) := by
  induction rs generalizing p with
  | nil =>
    exact ⟨rfl, fun c hc => hc, fun c hc => Or.inl hc, fun h => h,
      [], by simp, by simp, fun _ => by simp [readyCoops]⟩
  | cons c rs ih =>
    rw [List.foldl_cons]
    by_cases hc : c ∈ p.1.live ∧ c ∉ p.1.notified
    · have hstep : emitReadiesStep p c =
          ({ p.1 with notified := c :: p.1.notified },
            p.2 ++ [Callback.ready_to_deregister_notify c]) := by
        unfold emitReadiesStep
        rw [if_pos hc]
      rw [hstep]
      obtain ⟨i1, i2, i3, i4, tl, htl, hcb, hnd⟩ :=
        ih ({ p.1 with notified := c :: p.1.notified },
          p.2 ++ [Callback.ready_to_deregister_notify c])
      refine ⟨i1, ?_, ?_, ?_, Callback.ready_to_deregister_notify c :: tl,
        ?_, ?_, ?_⟩
      · intro x hx
        exact i2 x (List.mem_cons_of_mem c hx)
      · intro x hx
        rcases i3 x hx with hm | hm
        · rcases List.mem_cons.mp hm with hm2 | hm2
          · subst hm2
            exact Or.inr hc
          · exact Or.inl hm2
        · refine Or.inr ⟨hm.1, fun hxn => hm.2 (List.mem_cons_of_mem c hxn)⟩
      · intro hpn
        exact i4 (List.nodup_cons.mpr ⟨hc.2, hpn⟩)
      · rw [htl]
        show _ = p.2 ++ ([Callback.ready_to_deregister_notify c] ++ tl)
        rw [List.append_assoc]
      · intro cb hcbm
        rcases List.mem_cons.mp hcbm with hm | hm
        · exact ⟨c, hm, i2 c (List.mem_cons_self c p.1.notified), hc.2⟩
        · obtain ⟨c', hceq, hcin, hcnot⟩ := hcb cb hm
          exact ⟨c', hceq, hcin,
            fun hxn => hcnot (List.mem_cons_of_mem c hxn)⟩
      · intro hpn
        have hnd2 := hnd (List.nodup_cons.mpr ⟨hc.2, hpn⟩)
        have hrc : readyCoops (Callback.ready_to_deregister_notify c :: tl) =
            c :: readyCoops tl := rfl
        rw [hrc]
        refine List.nodup_cons.mpr ⟨?_, hnd2⟩
        intro hcontra
        obtain ⟨cb, hcbm, hcbeq⟩ := List.mem_filterMap.mp hcontra
        obtain ⟨c', hceq, hcin, hcnot⟩ := hcb cb hcbm
        subst hceq
        simp only at hcbeq
        injection hcbeq with hceq2
        rw [hceq2] at hcnot
        exact hcnot (List.mem_cons_self c p.1.notified)
    · have hstep : emitReadiesStep p c = p := by
        unfold emitReadiesStep
        rw [if_neg hc]
      rw [hstep]
      exact ih p

theorem readyCoops_append (a b : List Callback) :
    readyCoops (a ++ b) = readyCoops a ++ readyCoops b := by
  unfold readyCoops
  rw [List.filterMap_append]

theorem readyCoops_pushes (ds : List Nat) :
    readyCoops (ds.map Callback.push) = [] := by
  induction ds with
  | nil => rfl
  | cons d rest ih =>
    show readyCoops (Callback.push d :: rest.map Callback.push) = []
    rw [readyCoops, List.filterMap_cons]
    exact ih

theorem runCmd_spec (w : SpecW) :
    (runCmd w).1.live = w.live ∧
    (∀ c ∈ w.notified, c ∈ (runCmd w).1.notified) ∧
    (∀ c ∈ (runCmd w).1.notified,
      c ∈ w.notified ∨ (c ∈ w.live ∧ c ∉ w.notified)) ∧
    (w.notified.Nodup → (runCmd w).1.notified.Nodup) ∧
    (∀ cb ∈ (runCmd w).2, cb ≠ Callback.schedule_timer ∧
      cb ≠ Callback.single_timer) ∧
    (∀ c ∈ readyCoops (runCmd w).2,
      c ∈ (runCmd w).1.notified ∧ c ∉ w.notified) ∧
    (w.notified.Nodup → (readyCoops (runCmd w).2).Nodup) := by
  unfold runCmd
  cases hs : w.script with
  | nil =>
    exact ⟨rfl, fun c hc => hc, fun c hc => Or.inl hc, fun h => h,
      by simp, by simp [readyCoops], fun _ => by simp [readyCoops]⟩
  | cons cmd rest =>
    dsimp only
    unfold emitReadies
    obtain ⟨i1, i2, i3, i4, tl, htl, hcb, hnd⟩ :=
      emitReadies_fold_spec cmd.readies ({ w with script := rest }, [])
    rw [htl]
    simp only [List.nil_append]
    have hready : readyCoops (tl ++ cmd.pushes.map Callback.push ++
        (if cmd.doStop then [Callback.stop] else [])) = readyCoops tl := by
      rw [readyCoops_append, readyCoops_append, readyCoops_pushes]
      by_cases hd : cmd.doStop
      · rw [if_pos hd]
        simp [readyCoops]
      · rw [if_neg hd]
        simp [readyCoops]
    refine ⟨i1, i2, i3, i4, ?_, ?_, ?_⟩
    · intro cb hcbm
      rcases List.mem_append.mp hcbm with hm | hm
      · rcases List.mem_append.mp hm with hm2 | hm2
        · obtain ⟨c', hceq, _, _⟩ := hcb cb hm2
          subst hceq
          exact ⟨fun h => Callback.noConfusion h, fun h => Callback.noConfusion h⟩
        · obtain ⟨d, _, hdeq⟩ := List.mem_map.mp hm2
          subst hdeq
          exact ⟨fun h => Callback.noConfusion h, fun h => Callback.noConfusion h⟩
      · split at hm
        · rw [List.mem_singleton.mp hm]
          exact ⟨fun h => Callback.noConfusion h, fun h => Callback.noConfusion h⟩
        · cases hm
    · intro c hcm
      rw [hready] at hcm
      obtain ⟨cb, hcbm, hcbeq⟩ := List.mem_filterMap.mp hcm
      obtain ⟨c', hceq, hcin, hcnot⟩ := hcb cb hcbm
      subst hceq
      simp only at hcbeq
      injection hcbeq with hceq2
      subst hceq2
      exact ⟨hcin, hcnot⟩
    · intro hn
      rw [hready]
      exact hnd hn

theorem applyCallbacks_no_schedule (ext : ExtBehavior W) (cbs : List Callback)
    (s : St W)
    (h : ∀ cb ∈ cbs, cb ≠ Callback.schedule_timer ∧
      cb ≠ Callback.single_timer) :
    (applyCallbacks ext cbs s).world = s.world ∧
    (applyCallbacks ext cbs s).m_final_dereg_coops =
      s.m_final_dereg_coops ++ readyCoops cbs := by
  induction cbs generalizing s with
  | nil =>
    exact ⟨rfl, by simp [applyCallbacks, readyCoops]⟩
  | cons cb rest ih =>
    have hfold : applyCallbacks ext (cb :: rest) s =
        applyCallbacks ext rest (applyCallback ext cb s) := rfl
    rw [hfold]
    obtain ⟨w1, b1⟩ := ih (applyCallback ext cb s)
      (fun cb2 h2 => h cb2 (List.mem_cons_of_mem cb h2))
    cases cb with
    | push d =>
      rw [w1, b1, applyCallback, push_eq]
      exact ⟨rfl, rfl⟩
    | ready_to_deregister_notify c =>
      rw [w1, b1, applyCallback, ready_to_deregister_notify_eq]
      refine ⟨rfl, ?_⟩
      show (s.m_final_dereg_coops ++ [c]) ++
          readyCoops rest = _
      rw [List.append_assoc]
      rfl
    | stop =>
      rw [w1, b1]
      by_cases hns : s.m_shutdown_status = .not_started
      · rw [applyCallback, stop_eq_of_not_started hns]
        exact ⟨rfl, rfl⟩
      · rw [applyCallback, stop_eq_of_ne hns]
        exact ⟨rfl, rfl⟩
    | schedule_timer =>
      exact absurd rfl (h Callback.schedule_timer
        (List.mem_cons_self _ _)).1
    | single_timer =>
      exact absurd rfl (h Callback.single_timer
        (List.mem_cons_self _ _)).2

theorem runCmd_window_inv (s : St SpecW) (op : ExtOp)
    (f : SpecW → SpecW × List Callback) (w1 : SpecW) (X : List Nat)
    (hw1 : f s.world = runCmd w1)
    (hsub : ∀ c ∈ X ++ s.m_final_dereg_coops, c ∈ w1.notified)
    (hnd : (X ++ s.m_final_dereg_coops).Nodup)
    (hNL : ∀ c ∈ w1.notified, c ∈ w1.live)
    (hNnd : w1.notified.Nodup) :
    (∀ c ∈ X ++ (run_ext_with_callbacks specExt op f s).m_final_dereg_coops,
      c ∈ (run_ext_with_callbacks specExt op f s).world.notified) ∧
    (X ++ (run_ext_with_callbacks specExt op f s).m_final_dereg_coops).Nodup ∧
    (∀ c ∈ (run_ext_with_callbacks specExt op f s).world.notified,
      c ∈ (run_ext_with_callbacks specExt op f s).world.live) ∧
    (run_ext_with_callbacks specExt op f s).world.notified.Nodup ∧
    (run_ext_with_callbacks specExt op f s).world.live = w1.live := by
  rw [run_ext_with_callbacks_eq, hw1]
  obtain ⟨r1, r2, r3, r4, r5, r6, r7⟩ := runCmd_spec w1
  obtain ⟨hwld, hbl⟩ := applyCallbacks_no_schedule specExt (runCmd w1).2
    { s with trace := s.trace ++ [Ev.ext op s.held],
             world := (runCmd w1).1 } r5
  rw [hwld, hbl]
  show (∀ c ∈ X ++ (s.m_final_dereg_coops ++ readyCoops (runCmd w1).2),
      c ∈ (runCmd w1).1.notified) ∧
    (X ++ (s.m_final_dereg_coops ++ readyCoops (runCmd w1).2)).Nodup ∧
    (∀ c ∈ (runCmd w1).1.notified, c ∈ (runCmd w1).1.live) ∧
    (runCmd w1).1.notified.Nodup ∧
    (runCmd w1).1.live = w1.live
  refine ⟨?_, ?_, ?_, r4 hNnd, r1⟩
  · intro c hc
    rcases List.mem_append.mp hc with hm | hm
    · exact r2 c (hsub c (List.mem_append.mpr (Or.inl hm)))
    rcases List.mem_append.mp hm with hm2 | hm2
    · exact r2 c (hsub c (List.mem_append.mpr (Or.inr hm2)))
    · exact (r6 c hm2).1
  · rw [← List.append_assoc]
    rw [List.nodup_append]
    refine ⟨hnd, r7 hNnd, ?_⟩
    intro a ha ha2
    exact (r6 a ha2).2 (hsub a ha)
  · intro c hc
    rcases r3 c hc with hm | hm
    · rw [r1]
      exact hNL c hm
    · rw [r1]
      exact hm.1

theorem drain_fold_inv (coops : List Nat) (s s' : St SpecW)
    (hF : coops.foldl (fun s c => run_ext_with_callbacks specExt
      (.final_deregister c) (specExt.final_deregister c) s) s = s')
    (hsub : ∀ c ∈ coops ++ s.m_final_dereg_coops, c ∈ s.world.notified)
    (hnd : (coops ++ s.m_final_dereg_coops).Nodup)
    (hNL : ∀ c ∈ s.world.notified, c ∈ s.world.live)
    (hNnd : s.world.notified.Nodup) :
    (∀ c ∈ s'.m_final_dereg_coops, c ∈ s'.world.notified) ∧
    s'.m_final_dereg_coops.Nodup ∧
    (∀ c ∈ s'.world.notified, c ∈ s'.world.live) ∧
    s'.world.notified.Nodup := by
  induction coops generalizing s with
  | nil =>
    subst hF
    simp only [List.nil_append] at hsub hnd
    exact ⟨hsub, hnd, hNL, hNnd⟩
  | cons c rest ih =>
    rw [List.foldl_cons] at hF
    have hnd2 : (c :: (rest ++ s.m_final_dereg_coops)).Nodup := hnd
    have hcnotin : c ∉ rest ++ s.m_final_dereg_coops :=
      (List.nodup_cons.mp hnd2).1
    have hndrest : (rest ++ s.m_final_dereg_coops).Nodup :=
      (List.nodup_cons.mp hnd2).2
    have hsub2 : ∀ x ∈ rest ++ s.m_final_dereg_coops,
        x ∈ s.world.notified.erase c := by
      intro x hx
      have hxne : x ≠ c := fun hxeq => hcnotin (hxeq ▸ hx)
      rw [List.mem_erase_of_ne hxne]
      exact hsub x (List.mem_cons_of_mem c hx)
    have hNL2 : ∀ x ∈ s.world.notified.erase c,
        x ∈ s.world.live.erase c := by
      intro x hx
      rcases (List.Nodup.mem_erase_iff hNnd).mp hx with ⟨hxne, hxmem⟩
      rw [List.mem_erase_of_ne hxne]
      exact hNL x hxmem
    obtain ⟨c1, c2, c3, c4, c5⟩ := runCmd_window_inv s (.final_deregister c)
      (specExt.final_deregister c)
      { s.world with live := s.world.live.erase c,
                     notified := s.world.notified.erase c } rest rfl
      hsub2 hndrest hNL2 (hNnd.erase c)
    exact ih (run_ext_with_callbacks specExt (.final_deregister c)
      (specExt.final_deregister c) s) hF c1 c2 c3 c4

theorem drain_of_empty (ext : ExtBehavior W) (dfuel : Nat) {s : St W}
    (h : s.m_final_dereg_coops = []) :
    process_final_deregs_if_any ext dfuel s = some s := by
  cases dfuel with
  | zero =>
    unfold process_final_deregs_if_any
    rw [if_pos (by rw [h]; rfl)]
  | succ n =>
    unfold process_final_deregs_if_any
    rw [if_pos (by rw [h]; rfl)]

theorem process_final_deregs_inv (dfuel : Nat) (s s' : St SpecW)
    (h : process_final_deregs_if_any specExt dfuel s = some s')
    (hsub : ∀ c ∈ s.m_final_dereg_coops, c ∈ s.world.notified)
    (hnd : s.m_final_dereg_coops.Nodup)
    (hNL : ∀ c ∈ s.world.notified, c ∈ s.world.live)
    (hNnd : s.world.notified.Nodup) :
    (∀ c ∈ s'.world.notified, c ∈ s'.world.live) ∧
    s'.world.notified.Nodup := by
  induction dfuel generalizing s with
  | zero =>
    unfold process_final_deregs_if_any at h
    by_cases hb : s.m_final_dereg_coops.isEmpty
    · rw [if_pos hb] at h
      injection h with h
      subst h
      exact ⟨hNL, hNnd⟩
    · rw [if_neg hb] at h
      cases h
  | succ n ih =>
    unfold process_final_deregs_if_any at h
    by_cases hb : s.m_final_dereg_coops.isEmpty
    · rw [if_pos hb] at h
      injection h with h
      subst h
      exact ⟨hNL, hNnd⟩
    · rw [if_neg hb] at h
      dsimp only at h
      obtain ⟨f1, f2, f3, f4⟩ := drain_fold_inv s.m_final_dereg_coops
        { s with m_final_dereg_coops := [], held := false } _ rfl
        (by
          intro c hc
          rw [List.append_nil] at hc
          exact hsub c hc)
        (by
          show (s.m_final_dereg_coops ++ ([] : List Nat)).Nodup
          rw [List.append_nil]
          exact hnd)
        hNL hNnd
      rw [unlock_do_eq] at h
      exact ih _ h f1 f2 f3 f4

theorem perform_shutdown_inv (s : St SpecW)
    (hsub : ∀ c ∈ s.m_final_dereg_coops, c ∈ s.world.notified)
    (hnd : s.m_final_dereg_coops.Nodup)
    (hNL : ∀ c ∈ s.world.notified, c ∈ s.world.live)
    (hNnd : s.world.notified.Nodup)
    (hcl : s.m_shutdown_status = .completed →
      s.m_final_dereg_coops = [] ∧ s.world.live = []) :
    GoodC3 (perform_shutdown_related_actions_if_needed specExt s) := by
  by_cases hs1 : s.m_shutdown_status = .must_be_started
  · rw [perform_shutdown_eq_of_must specExt hs1, unlock_do_eq]
    obtain ⟨c1, c2, c3, c4, c5⟩ := runCmd_window_inv
      { s with m_shutdown_status := .in_progress, held := false }
      .deregister_all specExt.deregister_all s.world [] rfl
      (by
        intro c hc
        rw [List.nil_append] at hc
        exact hsub c hc)
      (by
        show (([] : List Nat) ++ s.m_final_dereg_coops).Nodup
        rw [List.nil_append]
        exact hnd)
      hNL hNnd
    simp only [List.nil_append] at c1 c2
    set sr := run_ext_with_callbacks specExt .deregister_all
      specExt.deregister_all
      { s with m_shutdown_status := .in_progress, held := false } with hsr
    have hsrstatus : ({ sr with held := true } : St SpecW).m_shutdown_status =
        .in_progress := by
      obtain ⟨_, _, f3, _, _⟩ := run_ext_with_callbacks_spec specExt
        .deregister_all specExt.deregister_all
        { s with m_shutdown_status := .in_progress, held := false } rfl
      show sr.m_shutdown_status = .in_progress
      have hnc : ¬ sr.m_shutdown_status = .completed := by
        intro hcc
        exact absurd (f3.mp hcc) (by simp)
      have h2le : 2 ≤ sr.m_shutdown_status.toNat := by
        simpa [shutdown_status_t.toNat] using
          (run_ext_with_callbacks_spec specExt .deregister_all
            specExt.deregister_all
            { s with m_shutdown_status := .in_progress, held := false }
            rfl).2.1
      cases hcc : sr.m_shutdown_status <;>
        simp_all [shutdown_status_t.toNat]
    rw [if_pos hsrstatus]
    by_cases hr : specExt.has_live_coop
        ({ sr with held := true } : St SpecW).world = false
    · rw [if_pos hr]
      have hlive : ({ sr with held := true } : St SpecW).world.live = [] := by
        have : (!({ sr with held := true } :
            St SpecW).world.live.isEmpty) = false := hr
        rcases List.isEmpty_iff.mp (by
          cases hb : ({ sr with held := true } :
              St SpecW).world.live.isEmpty
          · rw [hb] at this
            cases this
          · rfl) with h
        exact h
      have hnot : ({ sr with held := true } : St SpecW).world.notified = [] := by
        rcases hne : ({ sr with held := true } :
            St SpecW).world.notified with _ | ⟨a, l⟩
        · rfl
        · have := c3 a (by rw [hne]; exact List.mem_cons_self a l)
          rw [hlive] at this
          cases this
      have hbl : ({ sr with held := true } :
          St SpecW).m_final_dereg_coops = [] := by
        rcases hne : ({ sr with held := true } :
            St SpecW).m_final_dereg_coops with _ | ⟨a, l⟩
        · rfl
        · have := c1 a (by rw [hne]; exact List.mem_cons_self a l)
          rw [hnot] at this
          cases this
      refine ⟨?_, ?_, ⟨?_, ?_⟩, ?_⟩
      · intro c hc
        exact c1 c hc
      · exact c2
      · intro c hc
        exact c3 c hc
      · exact c4
      · intro _
        exact ⟨hbl, hlive⟩
    · rw [if_neg hr]
      refine ⟨fun c hc => c1 c hc, c2, ⟨fun c hc => c3 c hc, c4⟩, ?_⟩
      intro hcomp
      exact absurd (show (.in_progress : shutdown_status_t) = .completed
        from hsrstatus ▸ hcomp) (by simp)
  · by_cases hs2 : s.m_shutdown_status = .in_progress
    · rw [perform_shutdown_eq_of_in_progress specExt hs2]
      by_cases hr : specExt.has_live_coop s.world = false
      · rw [if_pos hr]
        have hlive : s.world.live = [] := by
          cases hb : s.world.live.isEmpty
          · have : (!s.world.live.isEmpty) = false := hr
            rw [hb] at this
            cases this
          · exact List.isEmpty_iff.mp hb
        have hnot : s.world.notified = [] := by
          rcases hne : s.world.notified with _ | ⟨a, l⟩
          · rfl
          · have := hNL a (by rw [hne]; exact List.mem_cons_self a l)
            rw [hlive] at this
            cases this
        have hbl : s.m_final_dereg_coops = [] := by
          rcases hne : s.m_final_dereg_coops with _ | ⟨a, l⟩
          · rfl
          · have := hsub a (by rw [hne]; exact List.mem_cons_self a l)
            rw [hnot] at this
            cases this
        exact ⟨hsub, hnd, ⟨hNL, hNnd⟩, fun _ => ⟨hbl, hlive⟩⟩
      · rw [if_neg hr]
        refine ⟨hsub, hnd, ⟨hNL, hNnd⟩, ?_⟩
        intro hcomp
        exact absurd (show (.in_progress : shutdown_status_t) = .completed
          from hs2 ▸ hcomp) (by simp)
    · rw [perform_shutdown_eq_of_other specExt hs1 hs2]
      exact ⟨hsub, hnd, ⟨hNL, hNnd⟩, hcl⟩

theorem handle_expired_inv (s : St SpecW)
    (hsub : ∀ c ∈ s.m_final_dereg_coops, c ∈ s.world.notified)
    (hnd : s.m_final_dereg_coops.Nodup)
    (hNL : ∀ c ∈ s.world.notified, c ∈ s.world.live)
    (hNnd : s.world.notified.Nodup) :
    (∀ c ∈ (handle_expired_timers_if_any specExt s).m_final_dereg_coops,
      c ∈ (handle_expired_timers_if_any specExt s).world.notified) ∧
    (handle_expired_timers_if_any specExt s).m_final_dereg_coops.Nodup ∧
    (∀ c ∈ (handle_expired_timers_if_any specExt s).world.notified,
      c ∈ (handle_expired_timers_if_any specExt s).world.live) ∧
    (handle_expired_timers_if_any specExt s).world.notified.Nodup := by
  by_cases hr : specExt.collector_empty (specExt.process_expired s.world) =
      false
  · rw [handle_expired_eq_of_nonempty hr, unlock_do_eq]
    obtain ⟨c1, c2, c3, c4, c5⟩ := runCmd_window_inv
      { s with world := specExt.process_expired s.world,
               trace := s.trace ++ [Ev.ext .process_expired s.held,
                 Ev.ext (.collector_empty (specExt.collector_empty
                   (specExt.process_expired s.world))) s.held],
               held := false }
      .collector_process specExt.collector_process
      { specExt.process_expired s.world with elapsed := 0 } [] rfl
      (by
        intro c hc
        rw [List.nil_append] at hc
        exact hsub c hc)
      (by
        show (([] : List Nat) ++ s.m_final_dereg_coops).Nodup
        rw [List.nil_append]
        exact hnd)
      hNL hNnd
    simp only [List.nil_append] at c1 c2
    exact ⟨c1, c2, c3, c4⟩
  · rw [handle_expired_eq_of_empty hr]
    exact ⟨hsub, hnd, hNL, hNnd⟩

theorem try_handle_next_demand_inv (s : St SpecW)
    (hsub : ∀ c ∈ s.m_final_dereg_coops, c ∈ s.world.notified)
    (hnd : s.m_final_dereg_coops.Nodup)
    (hNL : ∀ c ∈ s.world.notified, c ∈ s.world.live)
    (hNnd : s.world.notified.Nodup) :
    (∀ c ∈ (try_handle_next_demand specExt s).m_final_dereg_coops,
      c ∈ (try_handle_next_demand specExt s).world.notified) ∧
    (try_handle_next_demand specExt s).m_final_dereg_coops.Nodup ∧
    (∀ c ∈ (try_handle_next_demand specExt s).world.notified,
      c ∈ (try_handle_next_demand specExt s).world.live) ∧
    (try_handle_next_demand specExt s).world.notified.Nodup := by
  unfold try_handle_next_demand
  cases hp : s.m_event_queue.pop with
  | none =>
    dsimp only
    by_cases hb : s.m_final_dereg_coops.isEmpty
    · rw [if_pos hb]
      exact ⟨hsub, hnd, hNL, hNnd⟩
    · rw [if_neg hb]
      exact ⟨hsub, hnd, hNL, hNnd⟩
  | some r =>
    dsimp only
    rw [unlock_do_eq]
    obtain ⟨c1, c2, c3, c4, c5⟩ := runCmd_window_inv
      { s with m_event_queue := r.2, held := false }
      (.dispatcher_handle r.1) (specExt.dispatcher_handle r.1)
      s.world [] rfl
      (by
        intro c hc
        rw [List.nil_append] at hc
        exact hsub c hc)
      (by
        show (([] : List Nat) ++ s.m_final_dereg_coops).Nodup
        rw [List.nil_append]
        exact hnd)
      hNL hNnd
    simp only [List.nil_append] at c1 c2
    exact ⟨c1, c2, c3, c4⟩

theorem run_main_loop_iteration_GoodC3 (dfuel : Nat) (s s' : St SpecW)
    (ex : Bool) (hh : s.held = true) (hg : GoodC3 s)
    (h : run_main_loop_iteration specExt dfuel s = some (s', ex)) :
    GoodC3 s' := by
  obtain ⟨hsub, hnd, ⟨hNL, hNnd⟩, hcl⟩ := hg
  unfold run_main_loop_iteration at h
  cases hd : process_final_deregs_if_any specExt dfuel s with
  | none =>
    rw [hd] at h
    cases h
  | some s1 =>
    rw [hd] at h
    dsimp only at h
    obtain ⟨d1, d2, d3, d4, td, htd, halld⟩ :=
      process_final_deregs_spec specExt dfuel s s1 hh hd
    obtain ⟨rNL, rNnd⟩ :=
      process_final_deregs_inv dfuel s s1 hd hsub hnd hNL hNnd
    have hsub1 : ∀ c ∈ s1.m_final_dereg_coops, c ∈ s1.world.notified := by
      intro c hc
      rw [d4] at hc
      cases hc
    have hnd1 : s1.m_final_dereg_coops.Nodup := by
      rw [d4]
      exact List.nodup_nil
    have hcl1 : s1.m_shutdown_status = .completed →
        s1.m_final_dereg_coops = [] ∧ s1.world.live = [] := by
      intro hc1
      obtain ⟨hb0, hl0⟩ := hcl (d3.mp hc1)
      have hde := drain_of_empty specExt dfuel hb0
      have hd2 := hd
      rw [hde] at hd2
      injection hd2 with heq
      rw [← heq]
      exact ⟨hb0, hl0⟩
    have hg2 : GoodC3 (perform_shutdown_related_actions_if_needed specExt s1) :=
      perform_shutdown_inv s1 hsub1 hnd1 rNL rNnd hcl1
    obtain ⟨p1, p2, tp, htp, hallp⟩ := perform_shutdown_spec specExt s1 d1
    by_cases hc : (perform_shutdown_related_actions_if_needed specExt
        s1).m_shutdown_status = .completed
    · rw [if_pos hc] at h
      injection h with h
      injection h with ha hb
      subst ha
      exact hg2
    · rw [if_neg hc] at h
      injection h with h
      injection h with ha hb
      subst ha
      obtain ⟨g2sub, g2nd, ⟨g2NL, g2Nnd⟩, g2cl⟩ := hg2
      obtain ⟨e1, e2, e3, e4⟩ := handle_expired_inv
        (perform_shutdown_related_actions_if_needed specExt s1)
        g2sub g2nd g2NL g2Nnd
      obtain ⟨q1, q2, q3, q4⟩ := try_handle_next_demand_inv
        (handle_expired_timers_if_any specExt
          (perform_shutdown_related_actions_if_needed specExt s1))
        e1 e2 e3 e4
      refine ⟨q1, q2, ⟨q3, q4⟩, ?_⟩
      intro hcomp
      have hcomp2 : (handle_expired_timers_if_any specExt
          (perform_shutdown_related_actions_if_needed specExt
            s1)).m_shutdown_status = .completed :=
        (try_handle_next_demand_spec specExt _
          (handle_expired_timers_spec specExt _ p1).1).2.2.1.mp hcomp
      exact absurd ((handle_expired_timers_spec specExt _
        p1).2.2.1.mp hcomp2) hc

theorem main_loop_iterations_GoodC3 (dfuel fuel : Nat) (s s' : St SpecW)
    (hh : s.held = true) (hg : GoodC3 s)
    (h : main_loop_iterations specExt dfuel fuel s = some s') :
    GoodC3 s' := by
  induction fuel generalizing s with
  | zero =>
    cases h
  | succ n ih =>
    unfold main_loop_iterations at h
    cases hi : run_main_loop_iteration specExt dfuel s with
    | none =>
      rw [hi] at h
      cases h
    | some r =>
      rw [hi] at h
      obtain ⟨s1, ex⟩ := r
      have hg1 : GoodC3 s1 :=
        run_main_loop_iteration_GoodC3 dfuel s s1 ex hh hg hi
      have h1 : s1.held = true :=
        (run_main_loop_iteration_spec specExt dfuel s s1 ex hh hi).1
      cases ex with
      | true =>
        dsimp only at h
        injection h with h
        subst h
        exact hg1
      | false =>
        dsimp only at h
        exact ih s1 h1 hg1 h

/-- C3: drain-before-complete over the spec-modelled collaborators: along
any run of the main loop from a state satisfying the `GoodC3` invariant
(backlogged cooperations are notified and unique, notified cooperations
are still live and unique), the invariant is preserved by every iteration,
and whenever the shutdown status is `completed` — in particular when the
loop exits — the final-deregistration backlog is empty and
`has_live_coop` reports false; completion is only ever set after the
backlog drain, when the repository reports no live cooperation. -/
theorem drain_before_complete :
    (∀ (dfuel : Nat) (s s' : St SpecW) (ex : Bool),
      s.held = true → GoodC3 s →
      run_main_loop_iteration specExt dfuel s = some (s', ex) →
      GoodC3 s' ∧ (s'.m_shutdown_status = .completed →
        s'.m_final_dereg_coops = [] ∧
        specExt.has_live_coop s'.world = false)) ∧
    (∀ (dfuel fuel : Nat) (s s' : St SpecW),
      s.held = true → GoodC3 s →
      main_loop_iterations specExt dfuel fuel s = some s' →
      s'.m_shutdown_status = .completed ∧
      s'.m_final_dereg_coops = [] ∧
      specExt.has_live_coop s'.world = false) := by
  constructor
  · intro dfuel s s' ex hh hg h
    have hg' := run_main_loop_iteration_GoodC3 dfuel s s' ex hh hg h
    refine ⟨hg', ?_⟩
    intro hcomp
    obtain ⟨hb, hl⟩ := hg'.2.2.2 hcomp
    refine ⟨hb, ?_⟩
    show (!s'.world.live.isEmpty) = false
    rw [hl]
    rfl
  · intro dfuel fuel s s' hh hg h
    have hg' := main_loop_iterations_GoodC3 dfuel fuel s s' hh hg h
    have hcomp := (main_loop_iterations_spec specExt dfuel fuel s s' hh h).2.2.1
    obtain ⟨hb, hl⟩ := hg'.2.2.2 hcomp
    refine ⟨hcomp, hb, ?_⟩
    show (!s'.world.live.isEmpty) = false
    rw [hl]
    rfl

theorem drain_before_complete_witness :
    (St.mk true .working [] .must_be_started ⟨[]⟩
      (SpecW.mk [1, 2] [] 0 0 [Cmd.mk [1] [] false, Cmd.mk [2] [] false])
      [] : St SpecW).held = true ∧
    GoodC3 (St.mk true .working [] .must_be_started ⟨[]⟩
      (SpecW.mk [1, 2] [] 0 0 [Cmd.mk [1] [] false, Cmd.mk [2] [] false])
      []) ∧
    main_loop_iterations specExt 4 8
      (St.mk true .working [] .must_be_started ⟨[]⟩
        (SpecW.mk [1, 2] [] 0 0 [Cmd.mk [1] [] false, Cmd.mk [2] [] false])
        []) =
      some (St.mk true .working [] .completed ⟨[]⟩
        (SpecW.mk [] [] 0 0 [])
        [Ev.ext .deregister_all false, Ev.ext (.has_live_coop true) true,
         Ev.ext .process_expired true, Ev.ext (.collector_empty true) true,
         Ev.ext (.final_deregister 1) false,
         Ev.ext (.final_deregister 2) false,
         Ev.ext (.has_live_coop false) true]) ∧
    ((St.mk true .working [] .completed ⟨[]⟩ (SpecW.mk [] [] 0 0 [])
        [Ev.ext .deregister_all false, Ev.ext (.has_live_coop true) true,
         Ev.ext .process_expired true, Ev.ext (.collector_empty true) true,
         Ev.ext (.final_deregister 1) false,
         Ev.ext (.final_deregister 2) false,
         Ev.ext (.has_live_coop false) true] : St SpecW).m_shutdown_status =
        .completed ∧
      (St.mk true .working [] .completed ⟨[]⟩ (SpecW.mk [] [] 0 0 [])
        [Ev.ext .deregister_all false, Ev.ext (.has_live_coop true) true,
         Ev.ext .process_expired true, Ev.ext (.collector_empty true) true,
         Ev.ext (.final_deregister 1) false,
         Ev.ext (.final_deregister 2) false,
         Ev.ext (.has_live_coop false) true] : St SpecW).m_final_dereg_coops =
        [] ∧
      specExt.has_live_coop (St.mk true .working [] .completed ⟨[]⟩
        (SpecW.mk [] [] 0 0 [])
        [Ev.ext .deregister_all false, Ev.ext (.has_live_coop true) true,
         Ev.ext .process_expired true, Ev.ext (.collector_empty true) true,
         Ev.ext (.final_deregister 1) false,
         Ev.ext (.final_deregister 2) false,
         Ev.ext (.has_live_coop false) true] : St SpecW).world = false) :=
  ⟨rfl, by unfold GoodC3 RepoInv; decide, by decide,
   drain_before_complete.2 4 8
     (St.mk true .working [] .must_be_started ⟨[]⟩
       (SpecW.mk [1, 2] [] 0 0 [Cmd.mk [1] [] false, Cmd.mk [2] [] false]) [])
     (St.mk true .working [] .completed ⟨[]⟩ (SpecW.mk [] [] 0 0 [])
       [Ev.ext .deregister_all false, Ev.ext (.has_live_coop true) true,
        Ev.ext .process_expired true, Ev.ext (.collector_empty true) true,
        Ev.ext (.final_deregister 1) false,
        Ev.ext (.final_deregister 2) false,
        Ev.ext (.has_live_coop false) true])
     rfl (by unfold GoodC3 RepoInv; decide) (by decide)⟩

end SimpleMtsafeStEnv
